import Mathlib

/-!
Shallow embedding of `src/Library/SimTools/ViscositySolver.cpp` from the
`rgoldade/3dFluidSimulation` repository, together with proofs of the spec's
claims about it.

Conventions of the embedding:
* grid coordinates are integer triples; per-axis grids carry a natural-number
  size triple and iteration covers exactly the in-range coordinates;
* all numeric values are rationals (the C++ code computes in `double`; the
  claims under verification are structural, so exact arithmetic is used);
* external collaborators (the level-set interpolants, the supersampled volume
  estimator, the Eigen conjugate-gradient solver) enter as explicit inputs or
  parameters, exactly at the call boundary the source uses them through;
* the tbb parallel loops write disjoint locations (per-face outputs, or
  thread-local triplet buffers merged by concatenation), so they are embedded
  as their sequential iteration in flattened-index order.
-/

namespace FluidSim3D

/-- Integer 3d grid coordinate (a cell, face, or edge index). -/
abbrev Vec3i := ℤ × ℤ × ℤ

/-- Grid resolution triple. -/
abbrev Size3 := ℕ × ℕ × ℕ

/-- Component access `v[axis]` for coordinates. -/
def nth (v : Vec3i) (axis : ℕ) : ℤ :=
  if axis = 0 then v.1 else if axis = 1 then v.2.1 else v.2.2

/-- Add `c` to component `axis` of `v`. -/
def offsetVec (v : Vec3i) (axis : ℕ) (c : ℤ) : Vec3i :=
  if axis = 0 then (v.1 + c, v.2.1, v.2.2)
  else if axis = 1 then (v.1, v.2.1 + c, v.2.2)
  else (v.1, v.2.1, v.2.2 + c)

/-- Component access `s[axis]` for size triples. -/
def nthSize (s : Size3) (axis : ℕ) : ℕ :=
  if axis = 0 then s.1 else if axis = 1 then s.2.1 else s.2.2

/-- The axis orthogonal to two distinct axes, `3 - a - b` as in the source. -/
def thirdAxis (a b : ℕ) : ℕ := 3 - a - b

/-- Modelled from the spec: the pure index-only grid-geometry helper mapping a
face to its two adjacent cells along its own axis (direction 0 is the cell
behind the face, direction 1 the cell in front). The helper itself lives in
the repository's grid utilities, outside `src/`. -/
def faceToCell (face : Vec3i) (axis direction : ℕ) : Vec3i :=
  if direction = 0 then offsetVec face axis (-1) else face

/-- Modelled from the spec: the helper mapping a cell to its two faces along
an axis (direction 0 the lower face, direction 1 the upper face). -/
def cellToFace (cell : Vec3i) (axis direction : ℕ) : Vec3i :=
  if direction = 0 then cell else offsetVec cell axis 1

/-- Modelled from the spec: the helper mapping a face to one of its incident
edges running along `edgeAxis`; the two choices differ by one step along the
axis orthogonal to both the face axis and the edge axis. -/
def faceToEdge (face : Vec3i) (faceAxis edgeAxis direction : ℕ) : Vec3i :=
  if direction = 0 then face else offsetVec face (thirdAxis faceAxis edgeAxis) 1

/-- Modelled from the spec: the helper mapping an edge to one of its incident
faces of axis `faceAxis`; inverse of `faceToEdge`. -/
def edgeToFace (edge : Vec3i) (edgeAxis faceAxis direction : ℕ) : Vec3i :=
  if direction = 0 then offsetVec edge (thirdAxis edgeAxis faceAxis) (-1) else edge

/-- Face material labels, lines 41-46 of the source. -/
inductive MaterialLabels where
  | SOLID_FACE
  | LIQUID_FACE
  | AIR_FACE
deriving DecidableEq

/-- The call inputs of `ViscositySolver` (lines 14-15), together with the
outputs of the external collaborators it consumes: the supersampled volume
fractions (lines 33-39) and the level-set / viscosity interpolants evaluated
at face and edge sample positions (lines 91 and 141). -/
structure SolverInput where
  gs : Size3
  dt : ℚ
  dx : ℚ
  velocity : ℕ → Vec3i → ℚ
  solidVelocity : ℕ → Vec3i → ℚ
  viscosity : Vec3i → ℚ
  viscosityAtEdge : ℕ → Vec3i → ℚ
  solidPhiAtFace : ℕ → Vec3i → ℚ
  centerVolumes : Vec3i → ℚ
  edgeVolumes : ℕ → Vec3i → ℚ
  faceVolumes : ℕ → Vec3i → ℚ

/-- Size of the staggered face grid of a given axis: the cell-grid size plus
one along that axis (asserted at lines 23-29). -/
def faceGridSize (gs : Size3) (axis : ℕ) : Size3 :=
  (if axis = 0 then gs.1 + 1 else gs.1,
   if axis = 1 then gs.2.1 + 1 else gs.2.1,
   if axis = 2 then gs.2.2 + 1 else gs.2.2)

/-- A face coordinate that the axis-`axis` staggered grid actually stores. -/
def inFaceGrid (gs : Size3) (axis : ℕ) (f : Vec3i) : Prop :=
  axis < 3 ∧
  0 ≤ f.1 ∧ f.1 < ((faceGridSize gs axis).1 : ℤ) ∧
  0 ≤ f.2.1 ∧ f.2.1 < ((faceGridSize gs axis).2.1 : ℤ) ∧
  0 ≤ f.2.2 ∧ f.2.2 < ((faceGridSize gs axis).2.2 : ℤ)

instance (gs : Size3) (axis : ℕ) (f : Vec3i) : Decidable (inFaceGrid gs axis f) := by
  unfold inFaceGrid; infer_instance

/-- The boundary test of line 63: the face sits at index 0 or at the maximal
index along its own axis. -/
def isBoundaryFace (gs : Size3) (axis : ℕ) (f : Vec3i) : Prop :=
  nth f axis = 0 ∨ nth f axis = (nthSize (faceGridSize gs axis) axis : ℤ) - 1

instance (gs : Size3) (axis : ℕ) (f : Vec3i) : Decidable (isBoundaryFace gs axis f) := by
  unfold isBoundaryFace; infer_instance

/-- The adjacent-cell volume check of lines 68-72. -/
def cellCheck (inp : SolverInput) (axis : ℕ) (f : Vec3i) : Bool :=
  [0, 1].any fun direction =>
    decide (0 < inp.centerVolumes (faceToCell f axis direction))

/-- The incident-edge volume check of lines 76-86. -/
def edgeCheck (inp : SolverInput) (axis : ℕ) (f : Vec3i) : Bool :=
  [0, 1, 2].any fun edgeAxis =>
    if edgeAxis = axis then false
    else [0, 1].any fun direction =>
      decide (0 < inp.edgeVolumes edgeAxis (faceToEdge f axis edgeAxis direction))

/-- Lines 66-87: the sticky `isFaceInSolve` flag; the edge fallback runs only
when the cell check left the flag false. -/
def faceInSolve (inp : SolverInput) (axis : ℕ) (f : Vec3i) : Bool :=
  if cellCheck inp axis f then true else edgeCheck inp axis f

/-- The face classification of lines 54-98. Faces outside the stored grid and
domain-boundary faces keep the `AIR_FACE` construction default of line 48. -/
def materialFaceLabels (inp : SolverInput) (axis : ℕ) (f : Vec3i) : MaterialLabels :=
  if ¬ inFaceGrid inp.gs axis f then .AIR_FACE
  else if isBoundaryFace inp.gs axis f then .AIR_FACE
  else if faceInSolve inp axis f then
    if inp.solidPhiAtFace axis f ≤ 0 then .SOLID_FACE else .LIQUID_FACE
  else .AIR_FACE

/-- All coordinates of a grid of size `s`, in raster order (x outermost,
z innermost), the order `forEachVoxelRange` visits. -/
def rasterList (s : Size3) : List Vec3i :=
  (List.range s.1).flatMap fun i =>
    (List.range s.2.1).flatMap fun j =>
      (List.range s.2.2).map fun (k : ℕ) => ((i : ℤ), (j : ℤ), (k : ℤ))

/-- All staggered faces tagged with their axis, axes in the order 0,1,2 and
faces of each axis in raster order: the iteration order of lines 107-113. -/
def allFaces (gs : Size3) : List (ℕ × Vec3i) :=
  [0, 1, 2].flatMap fun axis => (rasterList (faceGridSize gs axis)).map fun f => (axis, f)

/-- The LIQUID faces in DOF-assignment order. -/
def liquidFaces (inp : SolverInput) : List (ℕ × Vec3i) :=
  (allFaces inp.gs).filter fun p =>
    decide (materialFaceLabels inp p.1 p.2 = .LIQUID_FACE)

/-- Position of the first occurrence of `x` in a list. -/
def idxIn (x : ℕ × Vec3i) : List (ℕ × Vec3i) → Option ℕ
  | [] => none
  | y :: ys => if y = x then some 0 else (idxIn x ys).map (· + 1)

/-- The DOF index field of lines 100-113: each LIQUID face gets the running
counter's value in iteration order, every other face keeps `UNLABELLED_CELL`
(that is, -1). -/
def liquidFaceIndices (inp : SolverInput) (axis : ℕ) (f : Vec3i) : ℤ :=
  match idxIn (axis, f) (liquidFaces inp) with
  | some n => (n : ℤ)
  | none => -1

/-- `liquidDOFCount` after the assignment loop. -/
def liquidDOFCount (inp : SolverInput) : ℕ := (liquidFaces inp).length

/-- Line 115: `dt / sqr(surface.dx())`. -/
def discreteScalar (inp : SolverInput) : ℚ := inp.dt / inp.dx ^ 2

/-- The center-volume prescale of lines 120-128. -/
def scaledCenterVolumes (inp : SolverInput) (cell : Vec3i) : ℚ :=
  if 0 < inp.centerVolumes cell then
    inp.centerVolumes cell * (2 * discreteScalar inp * inp.viscosity cell)
  else inp.centerVolumes cell

/-- The edge-volume prescale of lines 130-144. -/
def scaledEdgeVolumes (inp : SolverInput) (edgeAxis : ℕ) (edge : Vec3i) : ℚ :=
  if 0 < inp.edgeVolumes edgeAxis edge then
    inp.edgeVolumes edgeAxis edge * (discreteScalar inp * inp.viscosityAtEdge edgeAxis edge)
  else inp.edgeVolumes edgeAxis edge

/-- A sparse-matrix entry: row, column, value. -/
abbrev Triplet := ℤ × ℤ × ℚ

/-- The -1/+1 sign attached to direction 0/1. -/
def dirSign (direction : ℕ) : ℚ := if direction = 0 then -1 else 1

/-- The three-way stencil dispatch (lines 201-216 and 246-266), off-diagonal
part: a LIQUID neighbor distinct from the row's own face records the triplet
`(row, neighbor, -coefficient)`. -/
def stencilTriplets (inp : SolverInput) (rowIndex : ℤ) (coefficient : ℚ)
    (nAxis : ℕ) (nFace : Vec3i) : List Triplet :=
  let nIndex := liquidFaceIndices inp nAxis nFace
  if 0 ≤ nIndex then
    if nIndex = rowIndex then [] else [(rowIndex, nIndex, -coefficient)]
  else []

/-- The stencil dispatch, diagonal part: a neighbor that is the row's own face
folds `-coefficient` into the diagonal accumulator. -/
def stencilDiag (inp : SolverInput) (rowIndex : ℤ) (coefficient : ℚ)
    (nAxis : ℕ) (nFace : Vec3i) : ℚ :=
  let nIndex := liquidFaceIndices inp nAxis nFace
  if 0 ≤ nIndex then (if nIndex = rowIndex then -coefficient else 0) else 0

/-- The stencil dispatch, right-hand-side part: a SOLID neighbor adds
`coefficient * solidVelocity` to the row's entry, an AIR neighbor nothing. -/
def stencilRhs (inp : SolverInput) (coefficient : ℚ)
    (nAxis : ℕ) (nFace : Vec3i) : ℚ :=
  let nIndex := liquidFaceIndices inp nAxis nFace
  if 0 ≤ nIndex then 0
  else if materialFaceLabels inp nAxis nFace = .SOLID_FACE then
    coefficient * inp.solidVelocity nAxis nFace
  else 0

/-- The cell-centered stress coefficient of line 199. -/
def cellCoefficient (inp : SolverInput) (faceAxis : ℕ) (f : Vec3i) (dd gd : ℕ) : ℚ :=
  dirSign dd * dirSign gd * scaledCenterVolumes inp (faceToCell f faceAxis dd)

/-- Off-diagonal triplets from the cell-centered stress loop, lines 183-219. -/
def cellTermTriplets (inp : SolverInput) (faceAxis : ℕ) (f : Vec3i) (rowIndex : ℤ) :
    List Triplet :=
  [0, 1].flatMap fun dd =>
    if 0 < scaledCenterVolumes inp (faceToCell f faceAxis dd) then
      [0, 1].flatMap fun gd =>
        stencilTriplets inp rowIndex (cellCoefficient inp faceAxis f dd gd)
          faceAxis (cellToFace (faceToCell f faceAxis dd) faceAxis gd)
    else []

/-- Diagonal contribution of the cell-centered stress loop. -/
def cellTermDiag (inp : SolverInput) (faceAxis : ℕ) (f : Vec3i) (rowIndex : ℤ) : ℚ :=
  ([0, 1].map fun dd =>
    if 0 < scaledCenterVolumes inp (faceToCell f faceAxis dd) then
      ([0, 1].map fun gd =>
        stencilDiag inp rowIndex (cellCoefficient inp faceAxis f dd gd)
          faceAxis (cellToFace (faceToCell f faceAxis dd) faceAxis gd)).sum
    else 0).sum

/-- Right-hand-side contribution of the cell-centered stress loop. -/
def cellTermRhs (inp : SolverInput) (faceAxis : ℕ) (f : Vec3i) : ℚ :=
  ([0, 1].map fun dd =>
    if 0 < scaledCenterVolumes inp (faceToCell f faceAxis dd) then
      ([0, 1].map fun gd =>
        stencilRhs inp (cellCoefficient inp faceAxis f dd gd)
          faceAxis (cellToFace (faceToCell f faceAxis dd) faceAxis gd)).sum
    else 0).sum

/-- The edge stress coefficient of lines 249-250. -/
def edgeCoefficient (inp : SolverInput) (edgeAxis : ℕ) (edge : Vec3i) (dd gd : ℕ) : ℚ :=
  dirSign dd * dirSign gd * scaledEdgeVolumes inp edgeAxis edge

/-- Off-diagonal triplets from the edge stress loop, lines 221-271. -/
def edgeTermTriplets (inp : SolverInput) (faceAxis : ℕ) (f : Vec3i) (rowIndex : ℤ) :
    List Triplet :=
  [0, 1, 2].flatMap fun edgeAxis =>
    if edgeAxis = faceAxis then []
    else [0, 1].flatMap fun dd =>
      if 0 < scaledEdgeVolumes inp edgeAxis (faceToEdge f faceAxis edgeAxis dd) then
        [0, 1, 2].flatMap fun gradientAxis =>
          if gradientAxis = edgeAxis then []
          else [0, 1].flatMap fun gd =>
            stencilTriplets inp rowIndex
              (edgeCoefficient inp edgeAxis (faceToEdge f faceAxis edgeAxis dd) dd gd)
              (thirdAxis gradientAxis edgeAxis)
              (edgeToFace (faceToEdge f faceAxis edgeAxis dd) edgeAxis
                (thirdAxis gradientAxis edgeAxis) gd)
      else []

/-- Diagonal contribution of the edge stress loop. -/
def edgeTermDiag (inp : SolverInput) (faceAxis : ℕ) (f : Vec3i) (rowIndex : ℤ) : ℚ :=
  ([0, 1, 2].map fun edgeAxis =>
    if edgeAxis = faceAxis then 0
    else ([0, 1].map fun dd =>
      if 0 < scaledEdgeVolumes inp edgeAxis (faceToEdge f faceAxis edgeAxis dd) then
        ([0, 1, 2].map fun gradientAxis =>
          if gradientAxis = edgeAxis then 0
          else ([0, 1].map fun gd =>
            stencilDiag inp rowIndex
              (edgeCoefficient inp edgeAxis (faceToEdge f faceAxis edgeAxis dd) dd gd)
              (thirdAxis gradientAxis edgeAxis)
              (edgeToFace (faceToEdge f faceAxis edgeAxis dd) edgeAxis
                (thirdAxis gradientAxis edgeAxis) gd)).sum).sum
      else 0).sum).sum

/-- Right-hand-side contribution of the edge stress loop. -/
def edgeTermRhs (inp : SolverInput) (faceAxis : ℕ) (f : Vec3i) : ℚ :=
  ([0, 1, 2].map fun edgeAxis =>
    if edgeAxis = faceAxis then 0
    else ([0, 1].map fun dd =>
      if 0 < scaledEdgeVolumes inp edgeAxis (faceToEdge f faceAxis edgeAxis dd) then
        ([0, 1, 2].map fun gradientAxis =>
          if gradientAxis = edgeAxis then 0
          else ([0, 1].map fun gd =>
            stencilRhs inp
              (edgeCoefficient inp edgeAxis (faceToEdge f faceAxis edgeAxis dd) dd gd)
              (thirdAxis gradientAxis edgeAxis)
              (edgeToFace (faceToEdge f faceAxis edgeAxis dd) edgeAxis
                (thirdAxis gradientAxis edgeAxis) gd)).sum).sum
      else 0).sum).sum

/-- The committed diagonal of a row (line 180 initialization, fold-ins at
lines 205 and 254, committed at line 273). -/
def rowDiagonal (inp : SolverInput) (faceAxis : ℕ) (f : Vec3i) (rowIndex : ℤ) : ℚ :=
  inp.faceVolumes faceAxis f
    + cellTermDiag inp faceAxis f rowIndex
    + edgeTermDiag inp faceAxis f rowIndex

/-- The right-hand-side entry written while processing one LIQUID face
(initialized at line 177, accumulated at lines 212 and 261). -/
def rowRhs (inp : SolverInput) (faceAxis : ℕ) (f : Vec3i) : ℚ :=
  inp.faceVolumes faceAxis f * inp.velocity faceAxis f
    + cellTermRhs inp faceAxis f
    + edgeTermRhs inp faceAxis f

/-- All triplets recorded while processing one LIQUID face. -/
def rowTriplets (inp : SolverInput) (faceAxis : ℕ) (f : Vec3i) : List Triplet :=
  let i := liquidFaceIndices inp faceAxis f
  cellTermTriplets inp faceAxis f i ++ edgeTermTriplets inp faceAxis f i
    ++ [(i, i, rowDiagonal inp faceAxis f i)]

/-- The merged triplet list of lines 146-282 (thread-local buffers are merged
by concatenation; the multiset of entries is what `setFromTriplets` consumes). -/
def sparseElements (inp : SolverInput) : List Triplet :=
  (allFaces inp.gs).flatMap fun p =>
    if 0 ≤ liquidFaceIndices inp p.1 p.2 then rowTriplets inp p.1 p.2 else []

/-- The face a DOF index stands for. -/
def dofFace (inp : SolverInput) (i : ℤ) : Option (ℕ × Vec3i) :=
  if 0 ≤ i then (liquidFaces inp)[i.toNat]? else none

/-- The initial guess vector of lines 147 and 172. -/
def initialGuessVector (inp : SolverInput) (i : ℤ) : ℚ :=
  match dofFace inp i with
  | some p => inp.velocity p.1 p.2
  | none => 0

/-- The right-hand-side vector of lines 148, 177, 212, 261. -/
def rhsVector (inp : SolverInput) (i : ℤ) : ℚ :=
  match dofFace inp i with
  | some p => rowRhs inp p.1 p.2
  | none => 0

/-- Sum of the values of all triplets at a given (row, column): the entry of
the matrix `setFromTriplets` builds at line 285. -/
def tripletSum (l : List Triplet) (i j : ℤ) : ℚ :=
  ((l.filter fun t => decide (t.1 = i ∧ t.2.1 = j)).map fun t => t.2.2).sum

/-- The assembled sparse matrix as a function of (row, column). -/
def matAt (inp : SolverInput) (i j : ℤ) : ℚ := tripletSum (sparseElements inp) i j

/-- Outcome of the linear solve: the two failure branches of lines 291-303,
or a solution vector. -/
inductive SolveResult where
  | buildFailure
  | convergenceFailure
  | success (x : ℤ → ℚ)

/-- An abstract linear solver: given the matrix size, the matrix, the
right-hand side and the initial guess, produce an outcome. -/
abbrev Solver := ℕ → (ℤ → ℤ → ℚ) → (ℤ → ℚ) → (ℤ → ℚ) → SolveResult

/-- Row `i` of the matrix-vector product `A * x` over indices `[0, N)`. -/
def rowDot (A : ℤ → ℤ → ℚ) (x : ℤ → ℚ) (N : ℕ) (i : ℤ) : ℚ :=
  ((List.range N).map fun (k : ℕ) => A i (k : ℤ) * x (k : ℤ)).sum

/-- Modelled from the spec: the guess-seeded iterative method of §4.3 (Eigen's
`ConjugateGradient::solveWithGuess`, external library code). An initial guess
whose residual is exactly zero meets the relative tolerance immediately, so
the method returns the guess unchanged. -/
def returnsExactGuess (solve : Solver) : Prop :=
  ∀ N A b x0, (∀ i : ℕ, i < N → rowDot A x0 N (i : ℤ) = b (i : ℤ)) →
    solve N A b x0 = .success x0

/-- The whole call, lines 14-327: classify, assemble, solve, scatter. On
either failure branch the velocity field is returned untouched; on success
the solution is written at every face holding a non-negative DOF index. -/
def ViscositySolver (solve : Solver) (inp : SolverInput) : ℕ → Vec3i → ℚ :=
  match solve (liquidDOFCount inp) (matAt inp) (rhsVector inp) (initialGuessVector inp) with
  | .buildFailure => inp.velocity
  | .convergenceFailure => inp.velocity
  | .success x => fun axis f =>
      if 0 ≤ liquidFaceIndices inp axis f then x (liquidFaceIndices inp axis f)
      else inp.velocity axis f

/-- The spec's wording of the active-face test (§4.1): either adjacent cell
has positive center volume, or one of the four incident edges, taken over the
two axes orthogonal to the face's own axis in both directions, has positive
edge volume. -/
def inSolveSpec (inp : SolverInput) (axis : ℕ) (f : Vec3i) : Prop :=
  (∃ direction ∈ [0, 1], 0 < inp.centerVolumes (faceToCell f axis direction)) ∨
  (∃ edgeAxis ∈ [0, 1, 2], edgeAxis ≠ axis ∧
    ∃ direction ∈ [0, 1],
      0 < inp.edgeVolumes edgeAxis (faceToEdge f axis edgeAxis direction))

instance (inp : SolverInput) (axis : ℕ) (f : Vec3i) : Decidable (inSolveSpec inp axis f) := by
  unfold inSolveSpec; infer_instance

/-- The spec's wording of the right-hand-side dispatch (§4.2): a SOLID
neighbor contributes `coefficient * solidVelocity` and every other neighbor
contributes nothing. -/
def specStencilSolid (inp : SolverInput) (coefficient : ℚ)
    (nAxis : ℕ) (nFace : Vec3i) : ℚ :=
  if materialFaceLabels inp nAxis nFace = .SOLID_FACE then
    coefficient * inp.solidVelocity nAxis nFace
  else 0

/-- Solid-neighbor contributions of the cell-centered stress stencil, per the
spec's wording. -/
def specCellSolidSum (inp : SolverInput) (faceAxis : ℕ) (f : Vec3i) : ℚ :=
  ([0, 1].map fun dd =>
    if 0 < scaledCenterVolumes inp (faceToCell f faceAxis dd) then
      ([0, 1].map fun gd =>
        specStencilSolid inp (cellCoefficient inp faceAxis f dd gd)
          faceAxis (cellToFace (faceToCell f faceAxis dd) faceAxis gd)).sum
    else 0).sum

/-- Solid-neighbor contributions of the edge stress stencil, per the spec's
wording. -/
def specEdgeSolidSum (inp : SolverInput) (faceAxis : ℕ) (f : Vec3i) : ℚ :=
  ([0, 1, 2].map fun edgeAxis =>
    if edgeAxis = faceAxis then 0
    else ([0, 1].map fun dd =>
      if 0 < scaledEdgeVolumes inp edgeAxis (faceToEdge f faceAxis edgeAxis dd) then
        ([0, 1, 2].map fun gradientAxis =>
          if gradientAxis = edgeAxis then 0
          else ([0, 1].map fun gd =>
            specStencilSolid inp
              (edgeCoefficient inp edgeAxis (faceToEdge f faceAxis edgeAxis dd) dd gd)
              (thirdAxis gradientAxis edgeAxis)
              (edgeToFace (faceToEdge f faceAxis edgeAxis dd) edgeAxis
                (thirdAxis gradientAxis edgeAxis) gd)).sum).sum
      else 0).sum).sum

/-- The spec's wording of a right-hand-side entry (§4.2): the face's own
inertial term plus the solid-neighbor boundary contributions. -/
def specRowRhs (inp : SolverInput) (faceAxis : ℕ) (f : Vec3i) : ℚ :=
  inp.faceVolumes faceAxis f * inp.velocity faceAxis f
    + specCellSolidSum inp faceAxis f + specEdgeSolidSum inp faceAxis f

/-- The spec's wording of the diagonal fold-in (§4.2): a stencil coefficient
is folded into the diagonal exactly when the gradient face coincides with the
row's own face. -/
def specStencilSelf (faceAxis : ℕ) (f : Vec3i) (coefficient : ℚ)
    (nAxis : ℕ) (nFace : Vec3i) : ℚ :=
  if nAxis = faceAxis ∧ nFace = f then coefficient else 0

/-- Self-coincident contributions of the cell-centered stress stencil, per
the spec's wording. -/
def specCellSelfSum (inp : SolverInput) (faceAxis : ℕ) (f : Vec3i) : ℚ :=
  ([0, 1].map fun dd =>
    if 0 < scaledCenterVolumes inp (faceToCell f faceAxis dd) then
      ([0, 1].map fun gd =>
        specStencilSelf faceAxis f (cellCoefficient inp faceAxis f dd gd)
          faceAxis (cellToFace (faceToCell f faceAxis dd) faceAxis gd)).sum
    else 0).sum

/-- Self-coincident contributions of the edge stress stencil, per the spec's
wording. -/
def specEdgeSelfSum (inp : SolverInput) (faceAxis : ℕ) (f : Vec3i) : ℚ :=
  ([0, 1, 2].map fun edgeAxis =>
    if edgeAxis = faceAxis then 0
    else ([0, 1].map fun dd =>
      if 0 < scaledEdgeVolumes inp edgeAxis (faceToEdge f faceAxis edgeAxis dd) then
        ([0, 1, 2].map fun gradientAxis =>
          if gradientAxis = edgeAxis then 0
          else ([0, 1].map fun gd =>
            specStencilSelf faceAxis f
              (edgeCoefficient inp edgeAxis (faceToEdge f faceAxis edgeAxis dd) dd gd)
              (thirdAxis gradientAxis edgeAxis)
              (edgeToFace (faceToEdge f faceAxis edgeAxis dd) edgeAxis
                (thirdAxis gradientAxis edgeAxis) gd)).sum).sum
      else 0).sum).sum

/-- The spec's wording of a committed diagonal entry (§4.2): the face volume
minus every stencil coefficient whose gradient face coincides with the row's
own face. -/
def specRowDiagonal (inp : SolverInput) (faceAxis : ℕ) (f : Vec3i) : ℚ :=
  inp.faceVolumes faceAxis f
    - (specCellSelfSum inp faceAxis f + specEdgeSelfSum inp faceAxis f)

/-- A concrete 3x1x1 test input: every cell fully fluid, no solid anywhere,
unit viscosity and timestep. -/
def cInp : SolverInput where
  gs := (3, 1, 1)
  dt := 1
  dx := 1
  velocity := fun _ f => if f = (1, 0, 0) then 2 else 3
  solidVelocity := fun _ _ => 5
  viscosity := fun _ => 1
  viscosityAtEdge := fun _ _ => 1
  solidPhiAtFace := fun _ _ => 1
  centerVolumes := fun _ => 1
  edgeVolumes := fun _ _ => 0
  faceVolumes := fun _ _ => 1

/-- The concrete test input with the viscosity field set to zero. -/
def cInpVisc0 : SolverInput :=
  { cInp with viscosity := fun _ => 0, viscosityAtEdge := fun _ _ => 0 }

/-- The concrete test input with a zero timestep. -/
def cInpDt0 : SolverInput := { cInp with dt := 0 }

/-- A concrete test input whose sole interior liquid face has a solid
neighbor: the solid level set is non-positive at the face (2,0,0) of axis 0. -/
def cInpSolid : SolverInput :=
  { cInp with solidPhiAtFace := fun axis f => if axis = 0 ∧ f = (2, 0, 0) then -1 else 1 }

/-- A velocity field agreeing with `cInp`'s at its LIQUID faces but differing
at SOLID, AIR, and boundary faces. -/
def cVel2 : ℕ → Vec3i → ℚ := fun _ f =>
  if f = (1, 0, 0) then 2 else if f = (2, 0, 0) then 3 else 99

/-- A solver that always reports success with the initial guess. -/
def idSolve : Solver := fun _ _ _ x0 => .success x0

/-- A solver that always reports a build failure. -/
def failSolve : Solver := fun _ _ _ _ => .buildFailure

/-- A solver that returns the initial guess when its residual is exactly
zero, and reports non-convergence otherwise. -/
def exactGuessSolve : Solver := fun N A b x0 =>
  if (List.range N).all fun (k : ℕ) => decide (rowDot A x0 N (k : ℤ) = b (k : ℤ)) then
    .success x0
  else .convergenceFailure

/-! ### Coordinate algebra -/

theorem offsetVec_offsetVec (v : Vec3i) (a : ℕ) (c d : ℤ) :
    offsetVec (offsetVec v a c) a d = offsetVec v a (c + d) := by
  unfold offsetVec; split_ifs <;> simp [Prod.ext_iff] <;> ring

theorem offsetVec_eq_iff (v w : Vec3i) (a : ℕ) (c : ℤ) :
    offsetVec v a c = w ↔ v = offsetVec w a (-c) := by
  unfold offsetVec; split_ifs <;> simp [Prod.ext_iff] <;> omega

theorem offsetVec_comm (v : Vec3i) (a b : ℕ) (c d : ℤ) :
    offsetVec (offsetVec v a c) b d = offsetVec (offsetVec v b d) a c := by
  unfold offsetVec; split_ifs <;> simp [Prod.ext_iff] <;> ring

theorem thirdAxis_comm (a b : ℕ) : thirdAxis a b = thirdAxis b a := by
  unfold thirdAxis; omega

theorem thirdAxis_lt (a b : ℕ) (ha : a < 3) (hb : b < 3) (hab : a ≠ b) :
    thirdAxis a b < 3 := by
  unfold thirdAxis; omega

theorem thirdAxis_ne_left (a b : ℕ) (ha : a < 3) (hb : b < 3) (hab : a ≠ b) :
    thirdAxis a b ≠ a := by
  unfold thirdAxis; omega

theorem thirdAxis_ne_right (a b : ℕ) (ha : a < 3) (hb : b < 3) (hab : a ≠ b) :
    thirdAxis a b ≠ b := by
  unfold thirdAxis; omega

theorem thirdAxis_thirdAxis (a b : ℕ) (ha : a < 3) (hb : b < 3) (hab : a ≠ b) :
    thirdAxis (thirdAxis a b) b = a := by
  unfold thirdAxis; omega

/-! ### Position lookup -/

theorem idxIn_eq_none_iff (x : ℕ × Vec3i) (l : List (ℕ × Vec3i)) :
    idxIn x l = none ↔ x ∉ l := by
  induction l with
  | nil => simp [idxIn]
  | cons y ys ih =>
    by_cases h : y = x
    · simp [idxIn, h]
    · simp [idxIn, h, Option.map_eq_none', ih, Ne.symm h]

theorem idxIn_lt_length (x : ℕ × Vec3i) (l : List (ℕ × Vec3i)) (n : ℕ)
    (h : idxIn x l = some n) : n < l.length := by
  induction l generalizing n with
  | nil => simp [idxIn] at h
  | cons y ys ih =>
    by_cases hy : y = x
    · rw [idxIn, if_pos hy] at h
      have : n = 0 := by exact (Option.some.inj h).symm
      simp [this]
    · rw [idxIn, if_neg hy] at h
      obtain ⟨m, hm, hmn⟩ := Option.map_eq_some'.mp h
      have := ih m hm
      simp only [List.length_cons]
      omega

theorem idxIn_eq_some_iff (x : ℕ × Vec3i) (l : List (ℕ × Vec3i)) (n : ℕ)
    (hnd : l.Nodup) : idxIn x l = some n ↔ l[n]? = some x := by
  induction l generalizing n with
  | nil => simp [idxIn]
  | cons y ys ih =>
    rw [List.nodup_cons] at hnd
    by_cases hy : y = x
    · subst hy
      cases n with
      | zero => simp [idxIn]
      | succ m =>
        rw [idxIn, if_pos rfl, List.getElem?_cons_succ]
        constructor
        · intro h; exact absurd (Option.some.inj h) (by omega)
        · intro h
          exact absurd (List.getElem?_mem h) hnd.1
    · cases n with
      | zero =>
        rw [idxIn, if_neg hy, List.getElem?_cons_zero]
        constructor
        · intro h
          obtain ⟨m, _, hm⟩ := Option.map_eq_some'.mp h
          omega
        · intro h
          exact absurd (Option.some.inj h) (fun he => hy he)
      | succ m =>
        rw [idxIn, if_neg hy, List.getElem?_cons_succ, ← ih m hnd.2]
        constructor
        · intro h
          obtain ⟨k, hk, hkm⟩ := Option.map_eq_some'.mp h
          have : k = m := by omega
          exact this ▸ hk
        · intro h
          rw [h]; rfl

/-! ### List sum and count helpers -/

theorem map_sum_single {α M : Type} [AddCommMonoid M] (l : List α) (g : α → M)
    (e : α) (he : e ∈ l) (hnd : l.Nodup) (h0 : ∀ x ∈ l, x ≠ e → g x = 0) :
    (l.map g).sum = g e := by
  induction l with
  | nil => cases he
  | cons y ys ih =>
    rw [List.nodup_cons] at hnd
    simp only [List.map_cons, List.sum_cons]
    rcases List.mem_cons.mp he with rfl | hmem
    · have hz : (ys.map g).sum = 0 := by
        refine List.sum_eq_zero ?_
        intro v hv
        rw [List.mem_map] at hv
        obtain ⟨a, ha, rfl⟩ := hv
        exact h0 a (List.mem_cons_of_mem _ ha) (fun h => hnd.1 (h ▸ ha))
      rw [hz, add_zero]
    · have hy : g y = 0 := h0 y (List.mem_cons_self _ _) (fun h => hnd.1 (h ▸ hmem))
      rw [hy, zero_add]
      exact ih hmem hnd.2 (fun v hv hve => h0 v (List.mem_cons_of_mem _ hv) hve)

theorem count_flatMap' {α β : Type} [BEq β] (l : List α) (f : α → List β) (b : β) :
    ((l.flatMap f).count b) = (l.map fun a => (f a).count b).sum := by
  induction l with
  | nil => simp
  | cons y ys ih => simp [List.flatMap_cons, List.count_append, ih]

theorem tripletSum_append (l₁ l₂ : List Triplet) (i j : ℤ) :
    tripletSum (l₁ ++ l₂) i j = tripletSum l₁ i j + tripletSum l₂ i j := by
  simp [tripletSum, List.filter_append]

theorem tripletSum_flatMap {α : Type} (l : List α) (f : α → List Triplet) (i j : ℤ) :
    tripletSum (l.flatMap f) i j = (l.map fun a => tripletSum (f a) i j).sum := by
  induction l with
  | nil => simp [tripletSum]
  | cons y ys ih => simp [List.flatMap_cons, tripletSum_append, ih]

/-! ### Enumeration of the staggered grids -/

theorem mem_rasterList (s : Size3) (f : Vec3i) :
    f ∈ rasterList s ↔
      (0 ≤ f.1 ∧ f.1 < (s.1 : ℤ)) ∧ (0 ≤ f.2.1 ∧ f.2.1 < (s.2.1 : ℤ)) ∧
      (0 ≤ f.2.2 ∧ f.2.2 < (s.2.2 : ℤ)) := by
  obtain ⟨x, y, z⟩ := f
  simp only [rasterList, List.mem_flatMap, List.mem_map, List.mem_range, Prod.ext_iff]
  constructor
  · rintro ⟨i, hi, j, hj, k, hk, h1, h2, h3⟩
    omega
  · rintro ⟨⟨hx0, hx1⟩, ⟨hy0, hy1⟩, ⟨hz0, hz1⟩⟩
    refine ⟨x.toNat, by omega, y.toNat, by omega, z.toNat, by omega, ?_, ?_, ?_⟩ <;>
      omega

theorem nodup_flatMap_key {α β : Type} (l : List α) (f : α → List β) (key : β → α)
    (hl : l.Nodup) (hf : ∀ a ∈ l, (f a).Nodup)
    (hkey : ∀ a ∈ l, ∀ b ∈ f a, key b = a) : (l.flatMap f).Nodup := by
  induction l with
  | nil => simp
  | cons a l ih =>
    rw [List.nodup_cons] at hl
    rw [List.flatMap_cons]
    refine List.Nodup.append (hf a (List.mem_cons_self _ _))
      (ih hl.2 (fun x hx => hf x (List.mem_cons_of_mem _ hx))
        (fun x hx => hkey x (List.mem_cons_of_mem _ hx))) ?_
    intro b hb hb'
    rw [List.mem_flatMap] at hb'
    obtain ⟨a', ha', hba'⟩ := hb'
    have h1 : key b = a := hkey a (List.mem_cons_self _ _) b hb
    have h2 : key b = a' := hkey a' (List.mem_cons_of_mem _ ha') b hba'
    exact hl.1 (h1 ▸ h2 ▸ ha')

theorem nodup_rasterList (s : Size3) : (rasterList s).Nodup := by
  refine nodup_flatMap_key _ _ (fun v => v.1.toNat) (List.nodup_range _) ?_ ?_
  · intro i _
    refine nodup_flatMap_key _ _ (fun v => v.2.1.toNat) (List.nodup_range _) ?_ ?_
    · intro j _
      refine List.Nodup.map ?_ (List.nodup_range _)
      intro k₁ k₂ h
      simpa [Prod.ext_iff] using h
    · intro j _ b hb
      simp only [List.mem_map, List.mem_range] at hb
      obtain ⟨k, _, rfl⟩ := hb
      simp
  · intro i _ b hb
    simp only [List.mem_flatMap, List.mem_map, List.mem_range] at hb
    obtain ⟨j, _, k, _, rfl⟩ := hb
    simp

theorem nodup_allFaces (gs : Size3) : (allFaces gs).Nodup := by
  refine nodup_flatMap_key _ _ Prod.fst (by decide) ?_ ?_
  · intro a _
    refine List.Nodup.map ?_ (nodup_rasterList _)
    intro f₁ f₂ h
    simpa [Prod.ext_iff] using h
  · intro a _ b hb
    simp only [List.mem_map] at hb
    obtain ⟨f, _, rfl⟩ := hb
    rfl

theorem mem_allFaces (gs : Size3) (p : ℕ × Vec3i) :
    p ∈ allFaces gs ↔ inFaceGrid gs p.1 p.2 := by
  obtain ⟨a, f⟩ := p
  simp only [allFaces, List.mem_flatMap, List.mem_map]
  constructor
  · rintro ⟨axis, haxis, g, hg, heq⟩
    injection heq with h1 h2
    subst h1; subst h2
    rw [mem_rasterList] at hg
    have h3 : axis = 0 ∨ axis = 1 ∨ axis = 2 := by simpa using haxis
    unfold inFaceGrid
    exact ⟨by omega, hg.1.1, hg.1.2, hg.2.1.1, hg.2.1.2, hg.2.2.1, hg.2.2.2⟩
  · intro h
    unfold inFaceGrid at h
    refine ⟨a, ?_, f, ?_, rfl⟩
    · have := h.1
      simp only [List.mem_cons, List.mem_singleton]
      omega
    · rw [mem_rasterList]; tauto

/-! ### Liquid faces and DOF indices -/

theorem inFaceGrid_of_liquid (inp : SolverInput) (a : ℕ) (f : Vec3i)
    (h : materialFaceLabels inp a f = .LIQUID_FACE) : inFaceGrid inp.gs a f := by
  unfold materialFaceLabels at h
  split_ifs at h with h1 h2 h3 h4 <;> simp_all

theorem mem_liquidFaces (inp : SolverInput) (p : ℕ × Vec3i) :
    p ∈ liquidFaces inp ↔ materialFaceLabels inp p.1 p.2 = .LIQUID_FACE := by
  unfold liquidFaces
  rw [List.mem_filter]
  constructor
  · intro h
    exact of_decide_eq_true h.2
  · intro h
    exact ⟨(mem_allFaces _ _).mpr (inFaceGrid_of_liquid _ _ _ h), decide_eq_true h⟩

theorem nodup_liquidFaces (inp : SolverInput) : (liquidFaces inp).Nodup :=
  (nodup_allFaces _).filter _

theorem idx_nonneg_iff (inp : SolverInput) (a : ℕ) (f : Vec3i) :
    0 ≤ liquidFaceIndices inp a f ↔ materialFaceLabels inp a f = .LIQUID_FACE := by
  rw [← mem_liquidFaces inp (a, f)]
  unfold liquidFaceIndices
  cases h : idxIn (a, f) (liquidFaces inp) with
  | none =>
    rw [idxIn_eq_none_iff] at h
    simpa using h
  | some n =>
    have : (a, f) ∈ liquidFaces inp := by
      by_contra hmem
      rw [← idxIn_eq_none_iff] at hmem
      rw [h] at hmem
      cases hmem
    simpa using this

theorem idx_eq_iff_get (inp : SolverInput) (a : ℕ) (f : Vec3i) (n : ℕ) :
    liquidFaceIndices inp a f = (n : ℤ) ↔ (liquidFaces inp)[n]? = some (a, f) := by
  unfold liquidFaceIndices
  cases h : idxIn (a, f) (liquidFaces inp) with
  | none =>
    simp only
    constructor
    · intro hn; omega
    · intro hn
      rw [idxIn_eq_none_iff] at h
      exact absurd (List.getElem?_mem hn) h
  | some m =>
    simp only
    rw [idxIn_eq_some_iff _ _ _ (nodup_liquidFaces inp)] at h
    constructor
    · intro hn
      have : m = n := by omega
      exact this ▸ h
    · intro hn
      have hidx : idxIn (a, f) (liquidFaces inp) = some n := by
        rw [idxIn_eq_some_iff _ _ _ (nodup_liquidFaces inp)]
        exact hn
      have hidx' : idxIn (a, f) (liquidFaces inp) = some m := by
        rw [idxIn_eq_some_iff _ _ _ (nodup_liquidFaces inp)]
        exact h
      rw [hidx] at hidx'
      have : n = m := Option.some.inj hidx'
      omega

theorem idx_inj (inp : SolverInput) (a : ℕ) (f : Vec3i) (a' : ℕ) (f' : Vec3i)
    (h : 0 ≤ liquidFaceIndices inp a f)
    (he : liquidFaceIndices inp a f = liquidFaceIndices inp a' f') :
    a = a' ∧ f = f' := by
  set i := liquidFaceIndices inp a f with hi
  have h1 : liquidFaceIndices inp a f = (i.toNat : ℤ) := by omega
  have h2 : liquidFaceIndices inp a' f' = (i.toNat : ℤ) := by omega
  rw [idx_eq_iff_get] at h1 h2
  rw [h1] at h2
  have := Option.some.inj h2
  exact ⟨congrArg Prod.fst this, congrArg Prod.snd this⟩

theorem idx_lt_count (inp : SolverInput) (a : ℕ) (f : Vec3i) :
    liquidFaceIndices inp a f < (liquidDOFCount inp : ℤ) := by
  unfold liquidFaceIndices liquidDOFCount
  cases h : idxIn (a, f) (liquidFaces inp) with
  | none => simp only; omega
  | some n =>
    have := idxIn_lt_length _ _ _ h
    simp only; omega

theorem dofFace_idx (inp : SolverInput) (a : ℕ) (f : Vec3i)
    (h : 0 ≤ liquidFaceIndices inp a f) :
    dofFace inp (liquidFaceIndices inp a f) = some (a, f) := by
  have h1 : liquidFaceIndices inp a f = ((liquidFaceIndices inp a f).toNat : ℤ) := by omega
  rw [idx_eq_iff_get] at h1
  unfold dofFace
  rw [if_pos h]
  exact h1

theorem idx_surjective (inp : SolverInput) (n : ℕ) (h : n < liquidDOFCount inp) :
    ∃ a f, liquidFaceIndices inp a f = (n : ℤ) ∧
      materialFaceLabels inp a f = .LIQUID_FACE := by
  have hlen : n < (liquidFaces inp).length := h
  obtain ⟨p, hp⟩ : ∃ p, (liquidFaces inp)[n]? = some p :=
    ⟨_, List.getElem?_eq_getElem hlen⟩
  obtain ⟨a, f⟩ := p
  refine ⟨a, f, (idx_eq_iff_get inp a f n).mpr hp, ?_⟩
  exact (mem_liquidFaces _ _).mp (List.getElem?_mem hp)

/-! ### Row structure of the assembled triplets -/

theorem mem_stencilTriplets (inp : SolverInput) (i : ℤ) (c : ℚ) (na : ℕ) (nf : Vec3i)
    (t : Triplet) (h : t ∈ stencilTriplets inp i c na nf) :
    t = (i, liquidFaceIndices inp na nf, -c) ∧ 0 ≤ liquidFaceIndices inp na nf ∧
      liquidFaceIndices inp na nf ≠ i := by
  simp only [stencilTriplets] at h
  split_ifs at h with h1 h2
  · simp at h
  · rw [List.mem_singleton] at h
    exact ⟨h, h1, h2⟩
  · simp at h

theorem mem_cellTermTriplets_row (inp : SolverInput) (fa : ℕ) (f : Vec3i) (i : ℤ)
    (t : Triplet) (h : t ∈ cellTermTriplets inp fa f i) : t.1 = i := by
  unfold cellTermTriplets at h
  rw [List.mem_flatMap] at h
  obtain ⟨dd, _, h⟩ := h
  split_ifs at h
  · rw [List.mem_flatMap] at h
    obtain ⟨gd, _, h⟩ := h
    obtain ⟨ht, _, _⟩ := mem_stencilTriplets _ _ _ _ _ _ h
    rw [ht]
  · simp at h

theorem mem_edgeTermTriplets_row (inp : SolverInput) (fa : ℕ) (f : Vec3i) (i : ℤ)
    (t : Triplet) (h : t ∈ edgeTermTriplets inp fa f i) : t.1 = i := by
  unfold edgeTermTriplets at h
  rw [List.mem_flatMap] at h
  obtain ⟨ea, _, h⟩ := h
  split_ifs at h
  · simp at h
  · rw [List.mem_flatMap] at h
    obtain ⟨dd, _, h⟩ := h
    split_ifs at h
    · rw [List.mem_flatMap] at h
      obtain ⟨ga, _, h⟩ := h
      split_ifs at h
      · simp at h
      · rw [List.mem_flatMap] at h
        obtain ⟨gd, _, h⟩ := h
        obtain ⟨ht, _, _⟩ := mem_stencilTriplets _ _ _ _ _ _ h
        rw [ht]
    · simp at h

theorem mem_rowTriplets_row (inp : SolverInput) (fa : ℕ) (f : Vec3i)
    (t : Triplet) (h : t ∈ rowTriplets inp fa f) :
    t.1 = liquidFaceIndices inp fa f := by
  unfold rowTriplets at h
  rw [List.mem_append] at h
  rcases h with h | h
  · rw [List.mem_append] at h
    rcases h with h | h
    · exact mem_cellTermTriplets_row _ _ _ _ _ h
    · exact mem_edgeTermTriplets_row _ _ _ _ _ h
  · rw [List.mem_singleton] at h
    rw [h]

theorem tripletSum_eq_zero_of_row_ne (l : List Triplet) (i j : ℤ)
    (h : ∀ t ∈ l, t.1 ≠ i) : tripletSum l i j = 0 := by
  unfold tripletSum
  have : l.filter (fun t => decide (t.1 = i ∧ t.2.1 = j)) = [] := by
    rw [List.filter_eq_nil_iff]
    intro t ht
    simp only [decide_eq_true_eq]
    intro hc
    exact h t ht hc.1
  rw [this]
  rfl

theorem matAt_eq_rowSum (inp : SolverInput) (a : ℕ) (f : Vec3i)
    (h : 0 ≤ liquidFaceIndices inp a f) (j : ℤ) :
    matAt inp (liquidFaceIndices inp a f) j =
      tripletSum (rowTriplets inp a f) (liquidFaceIndices inp a f) j := by
  unfold matAt sparseElements
  rw [tripletSum_flatMap]
  have hmem : (a, f) ∈ allFaces inp.gs :=
    (mem_allFaces _ _).mpr
      (inFaceGrid_of_liquid _ _ _ ((idx_nonneg_iff _ _ _).mp h))
  rw [map_sum_single _ _ (a, f) hmem (nodup_allFaces _) ?_]
  · rw [if_pos h]
  · intro p hp hpe
    by_cases hpos : 0 ≤ liquidFaceIndices inp p.1 p.2
    · rw [if_pos hpos]
      refine tripletSum_eq_zero_of_row_ne _ _ _ ?_
      intro t ht hti
      rw [mem_rowTriplets_row _ _ _ _ ht] at hti
      have := idx_inj inp p.1 p.2 a f hpos (by rw [hti])
      exact hpe (Prod.ext this.1 this.2)
    · rw [if_neg hpos]
      exact tripletSum_eq_zero_of_row_ne _ _ _ (by intro t ht; simp at ht)

theorem idx_eq_neg_one_of_not_liquid (inp : SolverInput) (a : ℕ) (f : Vec3i)
    (h : materialFaceLabels inp a f ≠ .LIQUID_FACE) :
    liquidFaceIndices inp a f = -1 := by
  unfold liquidFaceIndices
  cases hidx : idxIn (a, f) (liquidFaces inp) with
  | none => rfl
  | some n =>
    have hmem : (a, f) ∈ liquidFaces inp := by
      by_contra hmem
      rw [← idxIn_eq_none_iff] at hmem
      rw [hidx] at hmem
      cases hmem
    exact absurd ((mem_liquidFaces _ _).mp hmem) h

theorem idxIn_filter_countP (pred : ℕ × Vec3i → Bool) (e : ℕ × Vec3i)
    (hp : pred e = true) :
    ∀ (l : List (ℕ × Vec3i)) (m : ℕ), l.Nodup → idxIn e l = some m →
      idxIn e (l.filter pred) = some ((l.take m).countP pred) := by
  intro l
  induction l with
  | nil => intro m _ hin; simp [idxIn] at hin
  | cons y ys ih =>
    intro m hnd hin
    rw [List.nodup_cons] at hnd
    by_cases hy : y = e
    · subst hy
      rw [idxIn, if_pos rfl] at hin
      have hm : m = 0 := (Option.some.inj hin).symm
      subst hm
      rw [List.take_zero, List.filter_cons_of_pos hp, idxIn, if_pos rfl]
      rfl
    · rw [idxIn, if_neg hy] at hin
      obtain ⟨m', hm', rfl⟩ := Option.map_eq_some'.mp hin
      rw [List.take_succ_cons]
      by_cases hpy : pred y = true
      · rw [List.filter_cons_of_pos hpy, idxIn, if_neg hy, ih m' hnd.2 hm']
        simp [List.countP_cons, hpy, Nat.add_comm]
      · rw [List.filter_cons_of_neg (by simpa using hpy), ih m' hnd.2 hm']
        simp [List.countP_cons, hpy]

theorem mem_cellTermTriplets_col (inp : SolverInput) (fa : ℕ) (f : Vec3i) (i : ℤ)
    (t : Triplet) (h : t ∈ cellTermTriplets inp fa f i) : 0 ≤ t.2.1 := by
  unfold cellTermTriplets at h
  rw [List.mem_flatMap] at h
  obtain ⟨dd, _, h⟩ := h
  split_ifs at h
  · rw [List.mem_flatMap] at h
    obtain ⟨gd, _, h⟩ := h
    obtain ⟨ht, hpos, _⟩ := mem_stencilTriplets _ _ _ _ _ _ h
    rw [ht]
    exact hpos
  · simp at h

theorem mem_edgeTermTriplets_col (inp : SolverInput) (fa : ℕ) (f : Vec3i) (i : ℤ)
    (t : Triplet) (h : t ∈ edgeTermTriplets inp fa f i) : 0 ≤ t.2.1 := by
  unfold edgeTermTriplets at h
  rw [List.mem_flatMap] at h
  obtain ⟨ea, _, h⟩ := h
  split_ifs at h
  · simp at h
  · rw [List.mem_flatMap] at h
    obtain ⟨dd, _, h⟩ := h
    split_ifs at h
    · rw [List.mem_flatMap] at h
      obtain ⟨ga, _, h⟩ := h
      split_ifs at h
      · simp at h
      · rw [List.mem_flatMap] at h
        obtain ⟨gd, _, h⟩ := h
        obtain ⟨ht, hpos, _⟩ := mem_stencilTriplets _ _ _ _ _ _ h
        rw [ht]
        exact hpos
    · simp at h

theorem mem_sparseElements_nonneg (inp : SolverInput) (t : Triplet)
    (h : t ∈ sparseElements inp) : 0 ≤ t.1 ∧ 0 ≤ t.2.1 := by
  unfold sparseElements at h
  rw [List.mem_flatMap] at h
  obtain ⟨p, hp, h⟩ := h
  split_ifs at h with hpos
  · have hrow := mem_rowTriplets_row _ _ _ _ h
    refine ⟨by rw [hrow]; exact hpos, ?_⟩
    unfold rowTriplets at h
    rw [List.mem_append] at h
    rcases h with h | h
    · rw [List.mem_append] at h
      rcases h with h | h
      · exact mem_cellTermTriplets_col _ _ _ _ _ h
      · exact mem_edgeTermTriplets_col _ _ _ _ _ h
    · rw [List.mem_singleton] at h
      rw [h]
      exact hpos
  · simp at h

/-! ### The claims -/

/-- Claim C1: on a successful solve, the velocity field is mutated exactly at
the LIQUID faces (those with a non-negative DOF index): every LIQUID face
receives the solved value at its DOF index, and every other face (SOLID, AIR,
or domain-boundary) retains its pre-call velocity value. -/
theorem claim1_scatter_exactly_liquid (solve : Solver) (inp : SolverInput) (x : ℤ → ℚ)
    (h : solve (liquidDOFCount inp) (matAt inp) (rhsVector inp) (initialGuessVector inp)
      = .success x) (axis : ℕ) (f : Vec3i) :
    (materialFaceLabels inp axis f = .LIQUID_FACE →
      ViscositySolver solve inp axis f = x (liquidFaceIndices inp axis f)) ∧
    (materialFaceLabels inp axis f ≠ .LIQUID_FACE →
      ViscositySolver solve inp axis f = inp.velocity axis f) := by
  unfold ViscositySolver
  rw [h]
  constructor
  · intro hl
    simp only
    rw [if_pos ((idx_nonneg_iff _ _ _).mpr hl)]
  · intro hl
    simp only
    rw [if_neg (fun hpos => hl ((idx_nonneg_iff _ _ _).mp hpos))]

theorem claim1_witness :
    ViscositySolver idSolve cInp 0 (1, 0, 0)
        = initialGuessVector cInp (liquidFaceIndices cInp 0 (1, 0, 0)) ∧
    ViscositySolver idSolve cInp 0 (0, 0, 0) = cInp.velocity 0 (0, 0, 0) :=
  ⟨(claim1_scatter_exactly_liquid idSolve cInp _ rfl 0 (1, 0, 0)).1 (by decide),
   (claim1_scatter_exactly_liquid idSolve cInp _ rfl 0 (0, 0, 0)).2 (by decide)⟩

/-- Claim C2: if the matrix build fails or the iterative solve fails to
converge, the call returns with the velocity field unmodified at every face:
no partial update is applied. -/
theorem claim2_failure_leaves_velocity (solve : Solver) (inp : SolverInput)
    (h : solve (liquidDOFCount inp) (matAt inp) (rhsVector inp) (initialGuessVector inp)
        = .buildFailure ∨
      solve (liquidDOFCount inp) (matAt inp) (rhsVector inp) (initialGuessVector inp)
        = .convergenceFailure)
    (axis : ℕ) (f : Vec3i) :
    ViscositySolver solve inp axis f = inp.velocity axis f := by
  unfold ViscositySolver
  rcases h with h | h <;> rw [h]

theorem claim2_witness :
    ViscositySolver failSolve cInp 0 (1, 0, 0) = cInp.velocity 0 (1, 0, 0) :=
  claim2_failure_leaves_velocity failSolve cInp (Or.inl rfl) 0 (1, 0, 0)

/-- Claim C3: the DOF indices form a bijection between LIQUID faces and the
dense range `[0, N)` with `N` the LIQUID face count: non-negative index iff
LIQUID, injective on faces, every index below `N` is hit, and each LIQUID
face's index is the count of LIQUID faces preceding it in the fixed
axis-then-raster iteration order, so the assignment is deterministic. -/
theorem claim3_dof_bijection (inp : SolverInput) :
    (∀ a f, 0 ≤ liquidFaceIndices inp a f ↔
      materialFaceLabels inp a f = .LIQUID_FACE) ∧
    (∀ a f a' f', 0 ≤ liquidFaceIndices inp a f →
      liquidFaceIndices inp a f = liquidFaceIndices inp a' f' → a = a' ∧ f = f') ∧
    (∀ a f, liquidFaceIndices inp a f < (liquidDOFCount inp : ℤ)) ∧
    (∀ n : ℕ, n < liquidDOFCount inp → ∃ a f,
      liquidFaceIndices inp a f = (n : ℤ) ∧
      materialFaceLabels inp a f = .LIQUID_FACE) ∧
    (liquidDOFCount inp = (allFaces inp.gs).countP fun p =>
      decide (materialFaceLabels inp p.1 p.2 = .LIQUID_FACE)) ∧
    (∀ a f m, idxIn (a, f) (allFaces inp.gs) = some m →
      materialFaceLabels inp a f = .LIQUID_FACE →
      liquidFaceIndices inp a f = ((((allFaces inp.gs).take m).countP fun p =>
        decide (materialFaceLabels inp p.1 p.2 = .LIQUID_FACE) : ℕ) : ℤ)) := by
  refine ⟨idx_nonneg_iff inp, idx_inj inp, idx_lt_count inp, idx_surjective inp, ?_, ?_⟩
  · unfold liquidDOFCount liquidFaces
    rw [List.countP_eq_length_filter]
  · intro a f m hin hliq
    have := idxIn_filter_countP
      (fun p => decide (materialFaceLabels inp p.1 p.2 = .LIQUID_FACE)) (a, f)
      (decide_eq_true hliq) (allFaces inp.gs) m (nodup_allFaces _) hin
    unfold liquidFaceIndices liquidFaces
    rw [this]

theorem claim3_witness :
    (0 ≤ liquidFaceIndices cInp 0 (1, 0, 0) ↔
      materialFaceLabels cInp 0 (1, 0, 0) = .LIQUID_FACE) ∧
    liquidFaceIndices cInp 0 (2, 0, 0) < (liquidDOFCount cInp : ℤ) ∧
    (∃ a f, liquidFaceIndices cInp a f = (1 : ℤ) ∧
      materialFaceLabels cInp a f = .LIQUID_FACE) :=
  ⟨(claim3_dof_bijection cInp).1 0 (1, 0, 0),
   (claim3_dof_bijection cInp).2.2.1 0 (2, 0, 0),
   (claim3_dof_bijection cInp).2.2.2.1 1 (by decide)⟩

/-- Claim C4: a face at index 0 or at the maximal index along its own axis is
never labeled SOLID or LIQUID (it keeps the AIR default), never receives a
DOF index, never appears in any assembled matrix triplet, and is never
written by the scatter. -/
theorem claim4_boundary_excluded (inp : SolverInput) (axis : ℕ) (f : Vec3i)
    (hgrid : inFaceGrid inp.gs axis f) (hb : isBoundaryFace inp.gs axis f) :
    materialFaceLabels inp axis f = .AIR_FACE ∧
    liquidFaceIndices inp axis f = -1 ∧
    (∀ t ∈ sparseElements inp, t.1 ≠ liquidFaceIndices inp axis f ∧
      t.2.1 ≠ liquidFaceIndices inp axis f) ∧
    (∀ solve : Solver, ViscositySolver solve inp axis f = inp.velocity axis f) := by
  have hlab : materialFaceLabels inp axis f = .AIR_FACE := by
    unfold materialFaceLabels
    rw [if_neg (not_not_intro hgrid), if_pos hb]
  have hidx : liquidFaceIndices inp axis f = -1 :=
    idx_eq_neg_one_of_not_liquid inp axis f (by rw [hlab]; intro hc; cases hc)
  refine ⟨hlab, hidx, ?_, ?_⟩
  · intro t ht
    obtain ⟨h1, h2⟩ := mem_sparseElements_nonneg inp t ht
    rw [hidx]
    omega
  · intro solve
    unfold ViscositySolver
    cases solve (liquidDOFCount inp) (matAt inp) (rhsVector inp) (initialGuessVector inp) with
    | buildFailure => rfl
    | convergenceFailure => rfl
    | success x =>
      simp only
      rw [if_neg (by rw [hidx]; omega)]

theorem claim4_witness :
    materialFaceLabels cInp 0 (0, 0, 0) = .AIR_FACE ∧
    liquidFaceIndices cInp 0 (0, 0, 0) = -1 ∧
    ViscositySolver idSolve cInp 0 (0, 0, 0) = cInp.velocity 0 (0, 0, 0) :=
  ⟨(claim4_boundary_excluded cInp 0 (0, 0, 0) (by decide) (by decide)).1,
   (claim4_boundary_excluded cInp 0 (0, 0, 0) (by decide) (by decide)).2.1,
   (claim4_boundary_excluded cInp 0 (0, 0, 0) (by decide) (by decide)).2.2.2 idSolve⟩

theorem faceInSolve_eq_or (inp : SolverInput) (axis : ℕ) (f : Vec3i) :
    faceInSolve inp axis f = (cellCheck inp axis f || edgeCheck inp axis f) := by
  unfold faceInSolve
  cases h : cellCheck inp axis f <;> simp [h]

/-- Claim C5: a non-boundary face is in the solve iff either adjacent cell
has positive center volume or one of the four incident edges has positive
edge volume (the edge fallback being evaluated only when the cell check
fails); an in-solve face is SOLID when the interpolated solid level set is
non-positive and LIQUID otherwise, and a face not in the solve stays AIR. -/
theorem claim5_classification (inp : SolverInput) (axis : ℕ) (f : Vec3i)
    (hgrid : inFaceGrid inp.gs axis f) (hnb : ¬ isBoundaryFace inp.gs axis f) :
    (faceInSolve inp axis f = true ↔ inSolveSpec inp axis f) ∧
    (materialFaceLabels inp axis f = .SOLID_FACE ↔
      inSolveSpec inp axis f ∧ inp.solidPhiAtFace axis f ≤ 0) ∧
    (materialFaceLabels inp axis f = .LIQUID_FACE ↔
      inSolveSpec inp axis f ∧ 0 < inp.solidPhiAtFace axis f) ∧
    (materialFaceLabels inp axis f = .AIR_FACE ↔ ¬ inSolveSpec inp axis f) := by
  have E : faceInSolve inp axis f = true ↔ inSolveSpec inp axis f := by
    rw [faceInSolve_eq_or]
    simp only [Bool.or_eq_true, cellCheck, edgeCheck, List.any_eq_true,
      decide_eq_true_eq, inSolveSpec]
    constructor
    · rintro (⟨d, hd, h⟩ | ⟨ea, hea, h⟩)
      · exact Or.inl ⟨d, hd, h⟩
      · by_cases he : ea = axis
        · rw [if_pos he] at h
          cases h
        · rw [if_neg he] at h
          simp only [List.any_eq_true, decide_eq_true_eq] at h
          obtain ⟨d, hd, h⟩ := h
          exact Or.inr ⟨ea, hea, he, d, hd, h⟩
    · rintro (⟨d, hd, h⟩ | ⟨ea, hea, hne, d, hd, h⟩)
      · exact Or.inl ⟨d, hd, h⟩
      · refine Or.inr ⟨ea, hea, ?_⟩
        rw [if_neg hne]
        simp only [List.any_eq_true, decide_eq_true_eq]
        exact ⟨d, hd, h⟩
  refine ⟨E, ?_⟩
  unfold materialFaceLabels
  rw [if_neg (not_not_intro hgrid), if_neg hnb]
  split_ifs with hin hphi
  · exact ⟨⟨fun _ => ⟨E.mp hin, hphi⟩, fun _ => rfl⟩,
      ⟨fun hc => (nomatch hc), fun hc => absurd hphi (not_le.mpr hc.2)⟩,
      ⟨fun hc => (nomatch hc), fun hc => absurd (E.mp hin) hc⟩⟩
  · exact ⟨⟨fun hc => (nomatch hc), fun hc => absurd hc.2 hphi⟩,
      ⟨fun _ => ⟨E.mp hin, not_le.mp hphi⟩, fun _ => rfl⟩,
      ⟨fun hc => (nomatch hc), fun hc => absurd (E.mp hin) hc⟩⟩
  · have hspec : ¬ inSolveSpec inp axis f := fun hs => hin (E.mpr hs)
    exact ⟨⟨fun hc => (nomatch hc), fun hc => absurd hc.1 hspec⟩,
      ⟨fun hc => (nomatch hc), fun hc => absurd hc.1 hspec⟩,
      ⟨fun _ => hspec, fun _ => rfl⟩⟩

theorem claim5_witness :
    (materialFaceLabels cInp 0 (1, 0, 0) = .LIQUID_FACE ↔
      inSolveSpec cInp 0 (1, 0, 0) ∧ 0 < cInp.solidPhiAtFace 0 (1, 0, 0)) ∧
    (materialFaceLabels cInpSolid 0 (2, 0, 0) = .SOLID_FACE ↔
      inSolveSpec cInpSolid 0 (2, 0, 0) ∧ cInpSolid.solidPhiAtFace 0 (2, 0, 0) ≤ 0) :=
  ⟨(claim5_classification cInp 0 (1, 0, 0) (by decide) (by decide)).2.2.1,
   (claim5_classification cInpSolid 0 (2, 0, 0) (by decide) (by decide)).2.1⟩

/-! ### Dispatch equivalences for the assembly claim -/

theorem neg_mapSum {α : Type} (l : List α) (g : α → ℚ) :
    -((l.map g).sum) = (l.map fun x => -(g x)).sum := by
  induction l with
  | nil => simp
  | cons y ys ih =>
    simp only [List.map_cons, List.sum_cons, neg_add, ih]

theorem mapSum_congr {α : Type} (l : List α) (g h : α → ℚ)
    (he : ∀ x ∈ l, g x = h x) : (l.map g).sum = (l.map h).sum := by
  rw [List.map_congr_left he]

theorem stencilRhs_eq_spec (inp : SolverInput) (c : ℚ) (na : ℕ) (nf : Vec3i) :
    stencilRhs inp c na nf = specStencilSolid inp c na nf := by
  simp only [stencilRhs, specStencilSolid]
  by_cases h : 0 ≤ liquidFaceIndices inp na nf
  · rw [if_pos h]
    have hl : materialFaceLabels inp na nf = .LIQUID_FACE := (idx_nonneg_iff _ _ _).mp h
    rw [if_neg (by rw [hl]; intro hc; cases hc)]
  · rw [if_neg h]

theorem stencilDiag_eq_spec (inp : SolverInput) (fa : ℕ) (f : Vec3i)
    (h : 0 ≤ liquidFaceIndices inp fa f) (c : ℚ) (na : ℕ) (nf : Vec3i) :
    stencilDiag inp (liquidFaceIndices inp fa f) c na nf =
      -(specStencilSelf fa f c na nf) := by
  simp only [stencilDiag, specStencilSelf]
  by_cases he : na = fa ∧ nf = f
  · obtain ⟨rfl, rfl⟩ := he
    rw [if_pos h, if_pos rfl, if_pos ⟨rfl, rfl⟩]
  · rw [if_neg he]
    by_cases hp : 0 ≤ liquidFaceIndices inp na nf
    · rw [if_pos hp, if_neg ?_]
      · norm_num
      · intro heq
        obtain ⟨h1, h2⟩ := idx_inj inp na nf fa f hp heq
        exact he ⟨h1, h2⟩
    · rw [if_neg hp]
      norm_num

theorem cellTermRhs_eq_spec (inp : SolverInput) (fa : ℕ) (f : Vec3i) :
    cellTermRhs inp fa f = specCellSolidSum inp fa f := by
  unfold cellTermRhs specCellSolidSum
  simp only [stencilRhs_eq_spec]

theorem edgeTermRhs_eq_spec (inp : SolverInput) (fa : ℕ) (f : Vec3i) :
    edgeTermRhs inp fa f = specEdgeSolidSum inp fa f := by
  unfold edgeTermRhs specEdgeSolidSum
  simp only [stencilRhs_eq_spec]

theorem cellTermDiag_eq_spec (inp : SolverInput) (fa : ℕ) (f : Vec3i)
    (h : 0 ≤ liquidFaceIndices inp fa f) :
    cellTermDiag inp fa f (liquidFaceIndices inp fa f) =
      -(specCellSelfSum inp fa f) := by
  unfold cellTermDiag specCellSelfSum
  rw [neg_mapSum]
  refine mapSum_congr _ _ _ ?_
  intro dd _
  split_ifs with hg
  · rw [neg_mapSum]
    refine mapSum_congr _ _ _ ?_
    intro gd _
    exact stencilDiag_eq_spec inp fa f h _ _ _
  · norm_num

theorem edgeTermDiag_eq_spec (inp : SolverInput) (fa : ℕ) (f : Vec3i)
    (h : 0 ≤ liquidFaceIndices inp fa f) :
    edgeTermDiag inp fa f (liquidFaceIndices inp fa f) =
      -(specEdgeSelfSum inp fa f) := by
  unfold edgeTermDiag specEdgeSelfSum
  rw [neg_mapSum]
  refine mapSum_congr _ _ _ ?_
  intro ea _
  split_ifs with hea
  · norm_num
  · rw [neg_mapSum]
    refine mapSum_congr _ _ _ ?_
    intro dd _
    split_ifs with hg
    · rw [neg_mapSum]
      refine mapSum_congr _ _ _ ?_
      intro ga _
      split_ifs with hga
      · norm_num
      · rw [neg_mapSum]
        refine mapSum_congr _ _ _ ?_
        intro gd _
        exact stencilDiag_eq_spec inp fa f h _ _ _
    · norm_num

theorem mem_cellTermTriplets_full (inp : SolverInput) (fa : ℕ) (f : Vec3i) (i : ℤ)
    (t : Triplet) (h : t ∈ cellTermTriplets inp fa f i) :
    t.1 = i ∧ 0 ≤ t.2.1 ∧ t.2.1 ≠ i := by
  unfold cellTermTriplets at h
  rw [List.mem_flatMap] at h
  obtain ⟨dd, _, h⟩ := h
  split_ifs at h
  · rw [List.mem_flatMap] at h
    obtain ⟨gd, _, h⟩ := h
    obtain ⟨ht, hpos, hne⟩ := mem_stencilTriplets _ _ _ _ _ _ h
    rw [ht]
    exact ⟨rfl, hpos, hne⟩
  · simp at h

theorem mem_edgeTermTriplets_full (inp : SolverInput) (fa : ℕ) (f : Vec3i) (i : ℤ)
    (t : Triplet) (h : t ∈ edgeTermTriplets inp fa f i) :
    t.1 = i ∧ 0 ≤ t.2.1 ∧ t.2.1 ≠ i := by
  unfold edgeTermTriplets at h
  rw [List.mem_flatMap] at h
  obtain ⟨ea, _, h⟩ := h
  split_ifs at h
  · simp at h
  · rw [List.mem_flatMap] at h
    obtain ⟨dd, _, h⟩ := h
    split_ifs at h
    · rw [List.mem_flatMap] at h
      obtain ⟨ga, _, h⟩ := h
      split_ifs at h
      · simp at h
      · rw [List.mem_flatMap] at h
        obtain ⟨gd, _, h⟩ := h
        obtain ⟨ht, hpos, hne⟩ := mem_stencilTriplets _ _ _ _ _ _ h
        rw [ht]
        exact ⟨rfl, hpos, hne⟩
    · simp at h

/-- Claim C7: for a LIQUID face with DOF index `i`, the initial guess entry is
the face's current velocity, the right-hand side is the face volume times the
velocity plus the SOLID-neighbor boundary contributions (AIR neighbors add
nothing), the committed diagonal is the face volume minus the coefficients of
stencil slots coinciding with the face itself, and every off-diagonal triplet
of the row couples `i` to the non-negative DOF index of a distinct LIQUID
neighbor. -/
theorem claim7_assembly_row (inp : SolverInput) (fa : ℕ) (f : Vec3i)
    (h : 0 ≤ liquidFaceIndices inp fa f) :
    initialGuessVector inp (liquidFaceIndices inp fa f) = inp.velocity fa f ∧
    rhsVector inp (liquidFaceIndices inp fa f) = specRowRhs inp fa f ∧
    rowDiagonal inp fa f (liquidFaceIndices inp fa f) = specRowDiagonal inp fa f ∧
    (∀ t ∈ cellTermTriplets inp fa f (liquidFaceIndices inp fa f) ++
        edgeTermTriplets inp fa f (liquidFaceIndices inp fa f),
      t.1 = liquidFaceIndices inp fa f ∧ 0 ≤ t.2.1 ∧
        t.2.1 ≠ liquidFaceIndices inp fa f) := by
  have hdof := dofFace_idx inp fa f h
  refine ⟨?_, ?_, ?_, ?_⟩
  · unfold initialGuessVector
    rw [hdof]
  · unfold rhsVector
    rw [hdof]
    show rowRhs inp fa f = specRowRhs inp fa f
    unfold rowRhs specRowRhs
    rw [cellTermRhs_eq_spec, edgeTermRhs_eq_spec]
  · unfold rowDiagonal specRowDiagonal
    rw [cellTermDiag_eq_spec inp fa f h, edgeTermDiag_eq_spec inp fa f h]
    ring
  · intro t ht
    rw [List.mem_append] at ht
    rcases ht with ht | ht
    · exact mem_cellTermTriplets_full _ _ _ _ _ ht
    · exact mem_edgeTermTriplets_full _ _ _ _ _ ht

theorem claim7_witness :
    initialGuessVector cInpSolid (liquidFaceIndices cInpSolid 0 (1, 0, 0)) =
      cInpSolid.velocity 0 (1, 0, 0) ∧
    rhsVector cInpSolid (liquidFaceIndices cInpSolid 0 (1, 0, 0)) =
      specRowRhs cInpSolid 0 (1, 0, 0) ∧
    rowDiagonal cInpSolid 0 (1, 0, 0) (liquidFaceIndices cInpSolid 0 (1, 0, 0)) =
      specRowDiagonal cInpSolid 0 (1, 0, 0) :=
  ⟨(claim7_assembly_row cInpSolid 0 (1, 0, 0) (by decide)).1,
   (claim7_assembly_row cInpSolid 0 (1, 0, 0) (by decide)).2.1,
   (claim7_assembly_row cInpSolid 0 (1, 0, 0) (by decide)).2.2.1⟩

/-! ### Pass-through behavior when all viscous coupling vanishes -/

theorem rowParts_of_no_coupling (inp : SolverInput)
    (hc : ∀ cell, ¬ 0 < scaledCenterVolumes inp cell)
    (he : ∀ ea e, ¬ 0 < scaledEdgeVolumes inp ea e)
    (fa : ℕ) (f : Vec3i) (i : ℤ) :
    cellTermTriplets inp fa f i = [] ∧ edgeTermTriplets inp fa f i = [] ∧
    cellTermDiag inp fa f i = 0 ∧ edgeTermDiag inp fa f i = 0 ∧
    cellTermRhs inp fa f = 0 ∧ edgeTermRhs inp fa f = 0 := by
  refine ⟨?_, ?_, ?_, ?_, ?_, ?_⟩
  · unfold cellTermTriplets
    simp [hc]
  · unfold edgeTermTriplets
    simp [he]
  · unfold cellTermDiag
    simp [hc]
  · unfold edgeTermDiag
    simp [he]
  · unfold cellTermRhs
    simp [hc]
  · unfold edgeTermRhs
    simp [he]

theorem tripletSum_eq_zero_of_not (l : List Triplet) (i j : ℤ)
    (h : ∀ t ∈ l, ¬ (t.1 = i ∧ t.2.1 = j)) : tripletSum l i j = 0 := by
  unfold tripletSum
  have hnil : l.filter (fun t => decide (t.1 = i ∧ t.2.1 = j)) = [] := by
    rw [List.filter_eq_nil_iff]
    intro t ht
    simp only [decide_eq_true_eq]
    exact h t ht
  rw [hnil]
  rfl

theorem tripletSum_singleton_diag (i : ℤ) (d : ℚ) :
    tripletSum [(i, i, d)] i i = d := by
  simp [tripletSum]

theorem matAt_offdiag_zero_of_no_coupling (inp : SolverInput)
    (hc : ∀ cell, ¬ 0 < scaledCenterVolumes inp cell)
    (he : ∀ ea e, ¬ 0 < scaledEdgeVolumes inp ea e)
    (i j : ℤ) (hij : i ≠ j) : matAt inp i j = 0 := by
  unfold matAt
  refine tripletSum_eq_zero_of_not _ _ _ ?_
  intro t ht
  unfold sparseElements at ht
  rw [List.mem_flatMap] at ht
  obtain ⟨p, hp, ht⟩ := ht
  split_ifs at ht with hpos
  · obtain ⟨h1, h2, _, _, _, _⟩ := rowParts_of_no_coupling inp hc he p.1 p.2
      (liquidFaceIndices inp p.1 p.2)
    simp only [rowTriplets] at ht
    rw [h1, h2] at ht
    simp only [List.nil_append, List.mem_singleton] at ht
    subst ht
    rintro ⟨hr, hcol⟩
    simp only at hr hcol
    exact hij (by rw [← hr, hcol])
  · simp at ht

theorem matAt_diag_of_no_coupling (inp : SolverInput)
    (hc : ∀ cell, ¬ 0 < scaledCenterVolumes inp cell)
    (he : ∀ ea e, ¬ 0 < scaledEdgeVolumes inp ea e)
    (a : ℕ) (f : Vec3i) (h : 0 ≤ liquidFaceIndices inp a f) :
    matAt inp (liquidFaceIndices inp a f) (liquidFaceIndices inp a f) =
      inp.faceVolumes a f := by
  rw [matAt_eq_rowSum inp a f h]
  obtain ⟨h1, h2, h3, h4, _, _⟩ := rowParts_of_no_coupling inp hc he a f
    (liquidFaceIndices inp a f)
  simp only [rowTriplets]
  rw [h1, h2]
  simp only [List.nil_append]
  rw [tripletSum_singleton_diag]
  unfold rowDiagonal
  rw [h3, h4]
  ring

theorem rhs_of_no_coupling (inp : SolverInput)
    (hc : ∀ cell, ¬ 0 < scaledCenterVolumes inp cell)
    (he : ∀ ea e, ¬ 0 < scaledEdgeVolumes inp ea e)
    (a : ℕ) (f : Vec3i) (h : 0 ≤ liquidFaceIndices inp a f) :
    rhsVector inp (liquidFaceIndices inp a f) =
      inp.faceVolumes a f * inp.velocity a f := by
  unfold rhsVector
  rw [dofFace_idx inp a f h]
  show rowRhs inp a f = _
  obtain ⟨_, _, _, _, h5, h6⟩ := rowParts_of_no_coupling inp hc he a f
    (liquidFaceIndices inp a f)
  unfold rowRhs
  rw [h5, h6]
  ring

theorem solve_is_passthrough (inp : SolverInput)
    (hc : ∀ cell, ¬ 0 < scaledCenterVolumes inp cell)
    (he : ∀ ea e, ¬ 0 < scaledEdgeVolumes inp ea e)
    (solve : Solver) (hsolve : returnsExactGuess solve)
    (axis : ℕ) (f : Vec3i) :
    ViscositySolver solve inp axis f = inp.velocity axis f := by
  have hres : ∀ i : ℕ, i < liquidDOFCount inp →
      rowDot (matAt inp) (initialGuessVector inp) (liquidDOFCount inp) (i : ℤ) =
        rhsVector inp (i : ℤ) := by
    intro i hi
    obtain ⟨a, g, hidx, _⟩ := idx_surjective inp i hi
    unfold rowDot
    rw [map_sum_single _ _ i (List.mem_range.mpr hi) (List.nodup_range _) ?_]
    · rw [← hidx]
      rw [matAt_diag_of_no_coupling inp hc he a g (by rw [hidx]; exact Int.natCast_nonneg i)]
      rw [rhs_of_no_coupling inp hc he a g (by rw [hidx]; exact Int.natCast_nonneg i)]
      unfold initialGuessVector
      rw [dofFace_idx inp a g (by rw [hidx]; exact Int.natCast_nonneg i)]
    · intro k _ hki
      have : (k : ℤ) ≠ (i : ℤ) := by
        intro hc'
        exact hki (Int.natCast_inj.mp hc')
      rw [matAt_offdiag_zero_of_no_coupling inp hc he _ _ (fun hc' => this hc'.symm)]
      ring
  have hs := hsolve (liquidDOFCount inp) (matAt inp) (rhsVector inp)
    (initialGuessVector inp) hres
  unfold ViscositySolver
  rw [hs]
  simp only
  by_cases hpos : 0 ≤ liquidFaceIndices inp axis f
  · rw [if_pos hpos]
    unfold initialGuessVector
    rw [dofFace_idx inp axis f hpos]
  · rw [if_neg hpos]

theorem exactGuessSolve_returns : returnsExactGuess exactGuessSolve := by
  intro N A b x0 h
  have hall : ((List.range N).all fun (k : ℕ) =>
      decide (rowDot A x0 N (k : ℤ) = b (k : ℤ))) = true := by
    rw [List.all_eq_true]
    intro k hk
    exact decide_eq_true (h k (List.mem_range.mp hk))
  unfold exactGuessSolve
  rw [hall]
  rfl

/-- Claim C9: with a zero timestep the prescale factor `dt / dx^2` zeroes all
viscous coupling, so one call leaves the velocity unchanged at every face,
and a second call on the already-updated input also returns it unchanged. -/
theorem claim9_dt_zero_identity (inp : SolverInput) (hdt : inp.dt = 0)
    (solve : Solver) (hsolve : returnsExactGuess solve) :
    (∀ axis f, ViscositySolver solve inp axis f = inp.velocity axis f) ∧
    (∀ axis f, ViscositySolver solve
        { inp with velocity := ViscositySolver solve inp } axis f =
      inp.velocity axis f) := by
  have hds : discreteScalar inp = 0 := by
    unfold discreteScalar
    rw [hdt]
    exact zero_div _
  have hc : ∀ cell, ¬ 0 < scaledCenterVolumes inp cell := by
    intro cell
    unfold scaledCenterVolumes
    rw [hds]
    split_ifs with hv
    · norm_num
    · exact hv
  have he : ∀ ea e, ¬ 0 < scaledEdgeVolumes inp ea e := by
    intro ea e
    unfold scaledEdgeVolumes
    rw [hds]
    split_ifs with hv
    · norm_num
    · exact hv
  have hfirst : ∀ axis f, ViscositySolver solve inp axis f = inp.velocity axis f :=
    solve_is_passthrough inp hc he solve hsolve
  refine ⟨hfirst, ?_⟩
  have hfun : ViscositySolver solve inp = inp.velocity :=
    funext fun axis => funext fun f => hfirst axis f
  intro axis f
  rw [hfun]
  have heta : { inp with velocity := inp.velocity } = inp := rfl
  rw [heta]
  exact hfirst axis f

theorem claim9_witness :
    cInpDt0.dt = 0 ∧
    ViscositySolver exactGuessSolve cInpDt0 0 (1, 0, 0) = cInpDt0.velocity 0 (1, 0, 0) ∧
    ViscositySolver exactGuessSolve
        { cInpDt0 with velocity := ViscositySolver exactGuessSolve cInpDt0 } 0 (1, 0, 0) =
      cInpDt0.velocity 0 (1, 0, 0) :=
  ⟨rfl,
   (claim9_dt_zero_identity cInpDt0 rfl exactGuessSolve exactGuessSolve_returns).1 0 (1, 0, 0),
   (claim9_dt_zero_identity cInpDt0 rfl exactGuessSolve exactGuessSolve_returns).2 0 (1, 0, 0)⟩

/-- Claim C8: with a uniformly zero viscosity field (and volume fractions in
their documented non-negative range), the prescale zeroes every center and
edge volume, no off-diagonal triplet is recorded, and the solved velocity at
every face equals the pre-solve velocity (pass-through). -/
theorem claim8_zero_viscosity_passthrough (inp : SolverInput)
    (hv : ∀ cell, inp.viscosity cell = 0)
    (hve : ∀ ea e, inp.viscosityAtEdge ea e = 0)
    (hcnn : ∀ cell, 0 ≤ inp.centerVolumes cell)
    (henn : ∀ ea e, 0 ≤ inp.edgeVolumes ea e)
    (solve : Solver) (hsolve : returnsExactGuess solve) :
    (∀ cell, scaledCenterVolumes inp cell = 0) ∧
    (∀ ea e, scaledEdgeVolumes inp ea e = 0) ∧
    (∀ a f i, cellTermTriplets inp a f i = [] ∧ edgeTermTriplets inp a f i = []) ∧
    (∀ i j, i ≠ j → matAt inp i j = 0) ∧
    (∀ axis f, ViscositySolver solve inp axis f = inp.velocity axis f) := by
  have hcz : ∀ cell, scaledCenterVolumes inp cell = 0 := by
    intro cell
    unfold scaledCenterVolumes
    split_ifs with hp
    · rw [hv cell]
      ring
    · have := hcnn cell
      linarith
  have hez : ∀ ea e, scaledEdgeVolumes inp ea e = 0 := by
    intro ea e
    unfold scaledEdgeVolumes
    split_ifs with hp
    · rw [hve ea e]
      ring
    · have := henn ea e
      linarith
  have hc : ∀ cell, ¬ 0 < scaledCenterVolumes inp cell := by
    intro cell
    rw [hcz cell]
    norm_num
  have he : ∀ ea e, ¬ 0 < scaledEdgeVolumes inp ea e := by
    intro ea e
    rw [hez ea e]
    norm_num
  refine ⟨hcz, hez, ?_, ?_, ?_⟩
  · intro a f i
    obtain ⟨h1, h2, _, _, _, _⟩ := rowParts_of_no_coupling inp hc he a f i
    exact ⟨h1, h2⟩
  · intro i j hij
    exact matAt_offdiag_zero_of_no_coupling inp hc he i j hij
  · exact solve_is_passthrough inp hc he solve hsolve

theorem claim8_witness :
    scaledCenterVolumes cInpVisc0 (1, 0, 0) = 0 ∧
    ViscositySolver exactGuessSolve cInpVisc0 0 (1, 0, 0) =
      cInpVisc0.velocity 0 (1, 0, 0) :=
  ⟨(claim8_zero_viscosity_passthrough cInpVisc0 (fun _ => rfl) (fun _ _ => rfl)
      (fun _ => by norm_num [cInpVisc0, cInp]) (fun _ _ => by norm_num [cInpVisc0, cInp])
      exactGuessSolve exactGuessSolve_returns).1 (1, 0, 0),
   (claim8_zero_viscosity_passthrough cInpVisc0 (fun _ => rfl) (fun _ _ => rfl)
      (fun _ => by norm_num [cInpVisc0, cInp]) (fun _ _ => by norm_num [cInpVisc0, cInp])
      exactGuessSolve exactGuessSolve_returns).2.2.2.2 0 (1, 0, 0)⟩

/-! ### Non-interference of non-LIQUID velocity values -/

theorem dofFace_some_liquid (inp : SolverInput) (i : ℤ) (p : ℕ × Vec3i)
    (h : dofFace inp i = some p) : 0 ≤ liquidFaceIndices inp p.1 p.2 := by
  unfold dofFace at h
  split_ifs at h with hi
  have hmem : p ∈ liquidFaces inp := List.getElem?_mem h
  exact (idx_nonneg_iff _ _ _).mpr ((mem_liquidFaces _ _).mp hmem)

/-- Claim C10: the output at LIQUID faces does not depend on the input
velocity stored at non-LIQUID faces: replacing the velocity field by one that
agrees on every face with a non-negative DOF index leaves the classification,
the matrix, the vectors, and hence the value produced at every LIQUID face
unchanged. -/
theorem claim10_noninterference (inp : SolverInput) (v2 : ℕ → Vec3i → ℚ)
    (solve : Solver)
    (hagree : ∀ a f, 0 ≤ liquidFaceIndices inp a f → v2 a f = inp.velocity a f) :
    ∀ a f, 0 ≤ liquidFaceIndices inp a f →
      ViscositySolver solve { inp with velocity := v2 } a f =
        ViscositySolver solve inp a f := by
  have hrhs : rhsVector { inp with velocity := v2 } = rhsVector inp := by
    funext i
    unfold rhsVector
    have hdof : dofFace { inp with velocity := v2 } i = dofFace inp i := rfl
    rw [hdof]
    cases hd : dofFace inp i with
    | none => rfl
    | some p =>
      have hliq := dofFace_some_liquid inp i p hd
      show rowRhs { inp with velocity := v2 } p.1 p.2 = rowRhs inp p.1 p.2
      unfold rowRhs
      have h1 : cellTermRhs { inp with velocity := v2 } p.1 p.2
          = cellTermRhs inp p.1 p.2 := rfl
      have h2 : edgeTermRhs { inp with velocity := v2 } p.1 p.2
          = edgeTermRhs inp p.1 p.2 := rfl
      rw [h1, h2]
      show inp.faceVolumes p.1 p.2 * v2 p.1 p.2 + _ + _ = _
      rw [hagree p.1 p.2 hliq]
  have hguess : initialGuessVector { inp with velocity := v2 }
      = initialGuessVector inp := by
    funext i
    unfold initialGuessVector
    have hdof : dofFace { inp with velocity := v2 } i = dofFace inp i := rfl
    rw [hdof]
    cases hd : dofFace inp i with
    | none => rfl
    | some p =>
      have hliq := dofFace_some_liquid inp i p hd
      show v2 p.1 p.2 = inp.velocity p.1 p.2
      exact hagree p.1 p.2 hliq
  have hcall : solve (liquidDOFCount { inp with velocity := v2 })
      (matAt { inp with velocity := v2 })
      (rhsVector { inp with velocity := v2 })
      (initialGuessVector { inp with velocity := v2 })
    = solve (liquidDOFCount inp) (matAt inp) (rhsVector inp)
      (initialGuessVector inp) := by
    rw [hrhs, hguess]
    rfl
  intro a f hpos
  unfold ViscositySolver
  rw [hcall]
  cases solve (liquidDOFCount inp) (matAt inp) (rhsVector inp)
      (initialGuessVector inp) with
  | buildFailure => exact hagree a f hpos
  | convergenceFailure => exact hagree a f hpos
  | success x =>
    simp only
    have hidx : liquidFaceIndices { inp with velocity := v2 } a f
        = liquidFaceIndices inp a f := rfl
    rw [hidx, if_pos hpos, if_pos hpos]

theorem claim10_witness :
    ViscositySolver idSolve { cInp with velocity := cVel2 } 0 (1, 0, 0) =
      ViscositySolver idSolve cInp 0 (1, 0, 0) := by
  refine claim10_noninterference cInp cVel2 idSolve ?_ 0 (1, 0, 0) (by decide)
  intro a f h
  have hmem : (a, f) ∈ liquidFaces cInp :=
    (mem_liquidFaces _ _).mpr ((idx_nonneg_iff _ _ _).mp h)
  have hlist : liquidFaces cInp = [(0, (1, 0, 0)), (0, (2, 0, 0))] := by decide
  rw [hlist] at hmem
  rcases List.mem_cons.mp hmem with heq | hmem2
  · injection heq with ha hf
    subst ha; subst hf
    decide
  · rcases List.mem_cons.mp hmem2 with heq | hnil
    · injection heq with ha hf
      subst ha; subst hf
      decide
    · cases hnil


theorem offsetVec_zero (v : Vec3i) (a : ℕ) : offsetVec v a 0 = v := by
  unfold offsetVec
  split_ifs <;> simp

theorem count_stencil (inp : SolverInput) (i j : ℤ) (hji : j ≠ i) (b : ℕ) (g : Vec3i)
    (hj : liquidFaceIndices inp b g = j) (hjpos : 0 ≤ j) (c v : ℚ) (na : ℕ) (nf : Vec3i) :
    (stencilTriplets inp i c na nf).count (i, j, v) =
      if na = b ∧ nf = g ∧ v = -c then 1 else 0 := by
  simp only [stencilTriplets]
  by_cases hface : na = b ∧ nf = g
  · obtain ⟨rfl, rfl⟩ := hface
    rw [hj, if_pos hjpos, if_neg hji]
    by_cases hv : v = -c
    · subst hv
      simp
    · rw [if_neg (show ¬ (na = na ∧ nf = nf ∧ v = -c) from fun hc => hv hc.2.2)]
      simp [List.count_cons, List.count_nil, Prod.ext_iff]
      intro h
      exact absurd h.symm hv
  · rw [if_neg (show ¬ (na = b ∧ nf = g ∧ v = -c) from fun hc => hface ⟨hc.1, hc.2.1⟩)]
    by_cases hp : 0 ≤ liquidFaceIndices inp na nf
    · rw [if_pos hp]
      by_cases hii : liquidFaceIndices inp na nf = i
      · rw [if_pos hii]; rfl
      · rw [if_neg hii]
        have hne : liquidFaceIndices inp na nf ≠ j := by
          intro heq
          obtain ⟨h1, h2⟩ := idx_inj inp na nf b g hp (by rw [heq, hj])
          exact hface ⟨h1, h2⟩
        simp [List.count_cons, List.count_nil, Prod.ext_iff]
        exact fun hcol _ => hne hcol
    · rw [if_neg hp]; rfl

theorem ite_one_zero_congr {A B : Prop} [Decidable A] [Decidable B] (h : A ↔ B) :
    (if A then (1:ℕ) else 0) = if B then 1 else 0 := if_congr h rfl rfl

theorem ite_merge {G C : Prop} [Decidable G] [Decidable C] :
    (if G then (if C then (1:ℕ) else 0) else 0) = if G ∧ C then 1 else 0 := by
  by_cases hG : G <;> by_cases hC : C <;> simp [hG, hC]

theorem offset_cancel_up (p : Vec3i) (a : ℕ) :
    offsetVec (offsetVec p a (-1)) a 1 = p := by
  rw [offsetVec_offsetVec, show (-1 : ℤ) + 1 = 0 from by norm_num, offsetVec_zero]

theorem offset_cancel_down (p : Vec3i) (a : ℕ) :
    offsetVec (offsetVec p a 1) a (-1) = p := by
  rw [offsetVec_offsetVec, show (1 : ℤ) + -1 = 0 from by norm_num, offsetVec_zero]

theorem cellCount_mirror (inp : SolverInput) (fa : ℕ) (fi fj : Vec3i) (i j : ℤ)
    (hi : liquidFaceIndices inp fa fi = i) (hj : liquidFaceIndices inp fa fj = j)
    (hipos : 0 ≤ i) (hjpos : 0 ≤ j) (hij : i ≠ j) (v : ℚ) :
    (cellTermTriplets inp fa fi i).count (i, j, v) =
      (cellTermTriplets inp fa fj j).count (j, i, v) := by
  have hff : fi ≠ fj := fun h => hij (by rw [← hi, ← hj, h])
  unfold cellTermTriplets cellCoefficient
  simp only [List.flatMap_cons, List.flatMap_nil, List.append_nil, List.count_append,
    apply_ite (List.count ((i, j, v) : Triplet)),
    apply_ite (List.count ((j, i, v) : Triplet)), List.count_nil,
    count_stencil inp i j (Ne.symm hij) fa fj hj hjpos,
    count_stencil inp j i hij fa fi hi hipos]
  norm_num [faceToCell, cellToFace, dirSign, offsetVec_offsetVec, offsetVec_zero]
  simp only [hff, Ne.symm hff, false_and, if_false, add_zero, zero_add]
  rw [ite_merge, ite_merge, ite_merge, ite_merge]
  have hA : (0 < scaledCenterVolumes inp (offsetVec fi fa (-1)) ∧
        offsetVec fi fa (-1) = fj ∧
          v = -scaledCenterVolumes inp (offsetVec fi fa (-1))) ↔
      (0 < scaledCenterVolumes inp fj ∧
        offsetVec fj fa 1 = fi ∧ v = -scaledCenterVolumes inp fj) := by
    constructor
    · rintro ⟨hg, hface, hv⟩
      refine ⟨?_, ?_, ?_⟩ <;> rw [← hface]
      · exact hg
      · exact offset_cancel_up fi fa
      · exact hv
    · rintro ⟨hg, hface, hv⟩
      refine ⟨?_, ?_, ?_⟩ <;> rw [← hface, offset_cancel_down] <;>
        first | exact hg | exact hv
  have hD : (0 < scaledCenterVolumes inp fi ∧
        offsetVec fi fa 1 = fj ∧ v = -scaledCenterVolumes inp fi) ↔
      (0 < scaledCenterVolumes inp (offsetVec fj fa (-1)) ∧
        offsetVec fj fa (-1) = fi ∧
          v = -scaledCenterVolumes inp (offsetVec fj fa (-1))) := by
    constructor
    · rintro ⟨hg, hface, hv⟩
      refine ⟨?_, ?_, ?_⟩ <;> rw [← hface, offset_cancel_down] <;>
        first | exact hg | exact hv
    · rintro ⟨hg, hface, hv⟩
      refine ⟨?_, ?_, ?_⟩ <;> rw [← hface]
      · exact hg
      · exact offset_cancel_up fj fa
      · exact hv
  rw [ite_one_zero_congr hA, ite_one_zero_congr hD]
  omega

theorem ite_add_distrib {G : Prop} [Decidable G] (a b : ℕ) :
    (if G then a + b else 0) = (if G then a else 0) + (if G then b else 0) := by
  split_ifs <;> simp

theorem pair_iff_shift (SC : Vec3i → ℚ) (w : ℕ) (fi fj : Vec3i) (v : ℚ) :
    (0 < SC fi ∧ offsetVec fi w (-1) = fj ∧ v = -SC fi) ↔
    (0 < SC (offsetVec fj w 1) ∧ offsetVec fj w 1 = fi ∧ v = -SC (offsetVec fj w 1)) := by
  constructor
  · rintro ⟨hg, hface, hv⟩
    subst hface
    rw [offset_cancel_up]
    exact ⟨hg, rfl, hv⟩
  · rintro ⟨hg, hface, hv⟩
    subst hface
    rw [offset_cancel_down]
    exact ⟨hg, rfl, hv⟩

theorem pair_iff_eq (SC : Vec3i → ℚ) (fi fj : Vec3i) (v : ℚ) :
    (0 < SC fi ∧ fi = fj ∧ v = SC fi) ↔ (0 < SC fj ∧ fj = fi ∧ v = SC fj) := by
  constructor <;> rintro ⟨hg, hface, hv⟩ <;> subst hface <;> exact ⟨hg, rfl, hv⟩

theorem pair_iff_diag (SC : Vec3i → ℚ) (u w : ℕ) (fi fj : Vec3i) (v : ℚ) :
    (0 < SC (offsetVec fi u 1) ∧ offsetVec (offsetVec fi u 1) w (-1) = fj ∧
      v = SC (offsetVec fi u 1)) ↔
    (0 < SC (offsetVec fj w 1) ∧ offsetVec (offsetVec fj w 1) u (-1) = fi ∧
      v = SC (offsetVec fj w 1)) := by
  constructor
  · rintro ⟨hg, hface, hv⟩
    subst hface
    rw [offset_cancel_up]
    exact ⟨hg, offset_cancel_down fi u, hv⟩
  · rintro ⟨hg, hface, hv⟩
    subst hface
    rw [offset_cancel_up]
    exact ⟨hg, offset_cancel_down fj w, hv⟩

theorem block_mirror (SC : Vec3i → ℚ) (u w : ℕ) (fi fj : Vec3i) (v : ℚ) :
    ((if 0 < SC fi then
        (if offsetVec fi w (-1) = fj ∧ v = -SC fi then (1:ℕ) else 0) +
        (if fi = fj ∧ v = SC fi then 1 else 0)
      else 0) +
     (if 0 < SC (offsetVec fi u 1) then
        (if offsetVec (offsetVec fi u 1) w (-1) = fj ∧ v = SC (offsetVec fi u 1) then 1 else 0) +
        (if offsetVec fi u 1 = fj ∧ v = -SC (offsetVec fi u 1) then 1 else 0)
      else 0)) =
    ((if 0 < SC fj then
        (if offsetVec fj u (-1) = fi ∧ v = -SC fj then 1 else 0) +
        (if fj = fi ∧ v = SC fj then 1 else 0)
      else 0) +
     (if 0 < SC (offsetVec fj w 1) then
        (if offsetVec (offsetVec fj w 1) u (-1) = fi ∧ v = SC (offsetVec fj w 1) then 1 else 0) +
        (if offsetVec fj w 1 = fi ∧ v = -SC (offsetVec fj w 1) then 1 else 0)
      else 0)) := by
  rw [ite_add_distrib, ite_add_distrib, ite_add_distrib, ite_add_distrib,
    ite_merge, ite_merge, ite_merge, ite_merge, ite_merge, ite_merge, ite_merge, ite_merge,
    ite_one_zero_congr (pair_iff_shift SC w fi fj v),
    ite_one_zero_congr (pair_iff_eq SC fi fj v),
    ite_one_zero_congr (pair_iff_diag SC u w fi fj v),
    ite_one_zero_congr ((pair_iff_shift SC u fj fi v).symm)]
  omega

theorem pair_iff_eq_shift (SC : Vec3i → ℚ) (u : ℕ) (fi fj : Vec3i) (v : ℚ) :
    (0 < SC (offsetVec fi u 1) ∧ fi = fj ∧ v = SC (offsetVec fi u 1)) ↔
    (0 < SC (offsetVec fj u 1) ∧ fj = fi ∧ v = SC (offsetVec fj u 1)) := by
  constructor <;> rintro ⟨hg, hface, hv⟩ <;> subst hface <;> exact ⟨hg, rfl, hv⟩

theorem block_mirror_same (SC : Vec3i → ℚ) (u : ℕ) (fi fj : Vec3i) (v : ℚ) :
    ((if 0 < SC fi then
        (if offsetVec fi u (-1) = fj ∧ v = -SC fi then (1:ℕ) else 0) +
        (if fi = fj ∧ v = SC fi then 1 else 0)
      else 0) +
     (if 0 < SC (offsetVec fi u 1) then
        (if fi = fj ∧ v = SC (offsetVec fi u 1) then 1 else 0) +
        (if offsetVec fi u 1 = fj ∧ v = -SC (offsetVec fi u 1) then 1 else 0)
      else 0)) =
    ((if 0 < SC fj then
        (if offsetVec fj u (-1) = fi ∧ v = -SC fj then 1 else 0) +
        (if fj = fi ∧ v = SC fj then 1 else 0)
      else 0) +
     (if 0 < SC (offsetVec fj u 1) then
        (if fj = fi ∧ v = SC (offsetVec fj u 1) then 1 else 0) +
        (if offsetVec fj u 1 = fi ∧ v = -SC (offsetVec fj u 1) then 1 else 0)
      else 0)) := by
  rw [ite_add_distrib, ite_add_distrib, ite_add_distrib, ite_add_distrib,
    ite_merge, ite_merge, ite_merge, ite_merge, ite_merge, ite_merge, ite_merge, ite_merge,
    ite_one_zero_congr (pair_iff_shift SC u fi fj v),
    ite_one_zero_congr (pair_iff_eq SC fi fj v),
    ite_one_zero_congr (pair_iff_eq_shift SC u fi fj v),
    ite_one_zero_congr ((pair_iff_shift SC u fj fi v).symm)]
  omega

theorem edgeCount_mirror (inp : SolverInput) (fai faj : ℕ) (fi fj : Vec3i) (i j : ℤ)
    (hfai : fai < 3) (hfaj : faj < 3)
    (hi : liquidFaceIndices inp fai fi = i) (hj : liquidFaceIndices inp faj fj = j)
    (hipos : 0 ≤ i) (hjpos : 0 ≤ j) (hij : i ≠ j) (v : ℚ) :
    (edgeTermTriplets inp fai fi i).count (i, j, v) =
      (edgeTermTriplets inp faj fj j).count (j, i, v) := by
  unfold edgeTermTriplets edgeCoefficient
  simp only [List.flatMap_cons, List.flatMap_nil, List.append_nil, List.count_append,
    apply_ite (List.count ((i, j, v) : Triplet)),
    apply_ite (List.count ((j, i, v) : Triplet)), List.count_nil,
    count_stencil inp i j (Ne.symm hij) faj fj hj hjpos,
    count_stencil inp j i hij fai fi hi hipos]
  interval_cases fai <;> interval_cases faj <;>
    norm_num [faceToEdge, edgeToFace, thirdAxis, dirSign, offsetVec_offsetVec, offsetVec_zero]
  · rw [block_mirror_same (fun x => scaledEdgeVolumes inp 1 x) 2 fi fj v,
      block_mirror_same (fun x => scaledEdgeVolumes inp 2 x) 1 fi fj v]
  · rw [block_mirror (fun x => scaledEdgeVolumes inp 2 x) 1 0 fi fj v]
  · rw [block_mirror (fun x => scaledEdgeVolumes inp 1 x) 2 0 fi fj v]
  · rw [block_mirror (fun x => scaledEdgeVolumes inp 2 x) 0 1 fi fj v]
  · rw [block_mirror_same (fun x => scaledEdgeVolumes inp 0 x) 2 fi fj v,
      block_mirror_same (fun x => scaledEdgeVolumes inp 2 x) 0 fi fj v]
  · rw [block_mirror (fun x => scaledEdgeVolumes inp 0 x) 2 1 fi fj v]
  · rw [block_mirror (fun x => scaledEdgeVolumes inp 1 x) 0 2 fi fj v]
  · rw [block_mirror (fun x => scaledEdgeVolumes inp 0 x) 1 2 fi fj v]
  · rw [block_mirror_same (fun x => scaledEdgeVolumes inp 0 x) 1 fi fj v,
      block_mirror_same (fun x => scaledEdgeVolumes inp 1 x) 0 fi fj v]

theorem cellCount_zero_of_axis_ne (inp : SolverInput) (fai faj : ℕ) (fi fj : Vec3i)
    (i j : ℤ) (hj : liquidFaceIndices inp faj fj = j) (hjpos : 0 ≤ j) (hji : j ≠ i)
    (hfa : fai ≠ faj) (v : ℚ) :
    (cellTermTriplets inp fai fi i).count (i, j, v) = 0 := by
  unfold cellTermTriplets cellCoefficient
  simp only [List.flatMap_cons, List.flatMap_nil, List.append_nil, List.count_append,
    apply_ite (List.count ((i, j, v) : Triplet)), List.count_nil,
    count_stencil inp i j hji faj fj hj hjpos]
  simp [hfa]

theorem cellCount_mirror_general (inp : SolverInput) (fai faj : ℕ) (fi fj : Vec3i)
    (i j : ℤ)
    (hi : liquidFaceIndices inp fai fi = i) (hj : liquidFaceIndices inp faj fj = j)
    (hipos : 0 ≤ i) (hjpos : 0 ≤ j) (hij : i ≠ j) (v : ℚ) :
    (cellTermTriplets inp fai fi i).count (i, j, v) =
      (cellTermTriplets inp faj fj j).count (j, i, v) := by
  by_cases hfa : fai = faj
  · subst hfa
    exact cellCount_mirror inp fai fi fj i j hi hj hipos hjpos hij v
  · rw [cellCount_zero_of_axis_ne inp fai faj fi fj i j hj hjpos (Ne.symm hij) hfa v,
      cellCount_zero_of_axis_ne inp faj fai fj fi j i hi hipos hij (Ne.symm hfa) v]

theorem count_sparse_eq_rowCount (inp : SolverInput) (a : ℕ) (f : Vec3i)
    (h : 0 ≤ liquidFaceIndices inp a f) (t : Triplet)
    (ht : t.1 = liquidFaceIndices inp a f) :
    (sparseElements inp).count t = (rowTriplets inp a f).count t := by
  unfold sparseElements
  rw [count_flatMap']
  rw [map_sum_single _ _ (a, f)
    ((mem_allFaces _ _).mpr (inFaceGrid_of_liquid _ _ _ ((idx_nonneg_iff _ _ _).mp h)))
    (nodup_allFaces _) ?_]
  · rw [if_pos h]
  · intro p hp hpe
    by_cases hpos : 0 ≤ liquidFaceIndices inp p.1 p.2
    · rw [if_pos hpos, List.count_eq_zero]
      intro hmem
      have hrow := mem_rowTriplets_row _ _ _ _ hmem
      obtain ⟨h1, h2⟩ := idx_inj inp p.1 p.2 a f hpos (by rw [← hrow, ht])
      exact hpe (Prod.ext h1 h2)
    · rw [if_neg hpos]
      rfl

theorem mem_cellTermTriplets_colFace (inp : SolverInput) (fa : ℕ) (f : Vec3i) (i : ℤ)
    (t : Triplet) (h : t ∈ cellTermTriplets inp fa f i) :
    ∃ p : ℕ × Vec3i, p ∈ liquidFaces inp ∧ liquidFaceIndices inp p.1 p.2 = t.2.1 := by
  unfold cellTermTriplets at h
  rw [List.mem_flatMap] at h
  obtain ⟨dd, _, h⟩ := h
  split_ifs at h
  · rw [List.mem_flatMap] at h
    obtain ⟨gd, _, h⟩ := h
    obtain ⟨ht, hpos, _⟩ := mem_stencilTriplets _ _ _ _ _ _ h
    refine ⟨(fa, cellToFace (faceToCell f fa dd) fa gd),
      (mem_liquidFaces _ _).mpr ((idx_nonneg_iff _ _ _).mp hpos), ?_⟩
    rw [ht]
  · simp at h

theorem mem_edgeTermTriplets_colFace (inp : SolverInput) (fa : ℕ) (f : Vec3i) (i : ℤ)
    (t : Triplet) (h : t ∈ edgeTermTriplets inp fa f i) :
    ∃ p : ℕ × Vec3i, p ∈ liquidFaces inp ∧ liquidFaceIndices inp p.1 p.2 = t.2.1 := by
  unfold edgeTermTriplets at h
  rw [List.mem_flatMap] at h
  obtain ⟨ea, _, h⟩ := h
  split_ifs at h
  · simp at h
  · rw [List.mem_flatMap] at h
    obtain ⟨dd, _, h⟩ := h
    split_ifs at h
    · rw [List.mem_flatMap] at h
      obtain ⟨ga, _, h⟩ := h
      split_ifs at h
      · simp at h
      · rw [List.mem_flatMap] at h
        obtain ⟨gd, _, h⟩ := h
        obtain ⟨ht, hpos, _⟩ := mem_stencilTriplets _ _ _ _ _ _ h
        refine ⟨(thirdAxis ga ea, edgeToFace (faceToEdge f fa ea dd) ea (thirdAxis ga ea) gd),
          (mem_liquidFaces _ _).mpr ((idx_nonneg_iff _ _ _).mp hpos), ?_⟩
        rw [ht]
    · simp at h

theorem mem_sparseElements_rowFace (inp : SolverInput) (t : Triplet)
    (h : t ∈ sparseElements inp) :
    ∃ p : ℕ × Vec3i, p ∈ liquidFaces inp ∧ liquidFaceIndices inp p.1 p.2 = t.1 := by
  unfold sparseElements at h
  rw [List.mem_flatMap] at h
  obtain ⟨p, hp, h⟩ := h
  split_ifs at h with hpos
  · exact ⟨p, (mem_liquidFaces _ _).mpr ((idx_nonneg_iff _ _ _).mp hpos),
      (mem_rowTriplets_row _ _ _ _ h).symm⟩
  · simp at h

theorem mem_sparseElements_colFace (inp : SolverInput) (t : Triplet)
    (h : t ∈ sparseElements inp) (hne : t.1 ≠ t.2.1) :
    ∃ p : ℕ × Vec3i, p ∈ liquidFaces inp ∧ liquidFaceIndices inp p.1 p.2 = t.2.1 := by
  unfold sparseElements at h
  rw [List.mem_flatMap] at h
  obtain ⟨p, hp, h⟩ := h
  split_ifs at h with hpos
  · simp only [rowTriplets] at h
    rw [List.mem_append, List.mem_append] at h
    rcases h with (h | h) | h
    · exact mem_cellTermTriplets_colFace _ _ _ _ _ h
    · exact mem_edgeTermTriplets_colFace _ _ _ _ _ h
    · rw [List.mem_singleton] at h
      subst h
      exact absurd rfl hne
  · simp at h

theorem count_singleton_ne (a b : Triplet) (h : b ≠ a) : List.count a [b] = 0 := by
  rw [List.count_eq_zero]
  intro hmem
  rw [List.mem_singleton] at hmem
  exact h hmem.symm

theorem count_sparse_zero_of_no_row (inp : SolverInput) (r c : ℤ) (v : ℚ)
    (h : ¬ ∃ p : ℕ × Vec3i, p ∈ liquidFaces inp ∧ liquidFaceIndices inp p.1 p.2 = r) :
    (sparseElements inp).count (r, c, v) = 0 := by
  rw [List.count_eq_zero]
  intro hmem
  exact h (mem_sparseElements_rowFace inp _ hmem)

theorem count_sparse_zero_of_no_col (inp : SolverInput) (r c : ℤ) (v : ℚ) (hne : r ≠ c)
    (h : ¬ ∃ p : ℕ × Vec3i, p ∈ liquidFaces inp ∧ liquidFaceIndices inp p.1 p.2 = c) :
    (sparseElements inp).count (r, c, v) = 0 := by
  rw [List.count_eq_zero]
  intro hmem
  exact h (mem_sparseElements_colFace inp _ hmem hne)

theorem sparse_count_mirror (inp : SolverInput) (i j : ℤ) (hij : i ≠ j) (v : ℚ) :
    (sparseElements inp).count (i, j, v) = (sparseElements inp).count (j, i, v) := by
  by_cases hexi : ∃ p : ℕ × Vec3i, p ∈ liquidFaces inp ∧ liquidFaceIndices inp p.1 p.2 = i
  · obtain ⟨⟨ai, fi⟩, hmemi, hi⟩ := hexi
    have hipos : 0 ≤ i := by
      rw [← hi]
      exact (idx_nonneg_iff _ _ _).mpr ((mem_liquidFaces _ _).mp hmemi)
    by_cases hexj : ∃ p : ℕ × Vec3i, p ∈ liquidFaces inp ∧ liquidFaceIndices inp p.1 p.2 = j
    · obtain ⟨⟨aj, fj⟩, hmemj, hj⟩ := hexj
      have hjpos : 0 ≤ j := by
        rw [← hj]
        exact (idx_nonneg_iff _ _ _).mpr ((mem_liquidFaces _ _).mp hmemj)
      have hai : ai < 3 :=
        (inFaceGrid_of_liquid _ _ _ ((mem_liquidFaces _ _).mp hmemi)).1
      have haj : aj < 3 :=
        (inFaceGrid_of_liquid _ _ _ ((mem_liquidFaces _ _).mp hmemj)).1
      rw [count_sparse_eq_rowCount inp ai fi (by rw [hi]; exact hipos) _ (by rw [hi]),
        count_sparse_eq_rowCount inp aj fj (by rw [hj]; exact hjpos) _ (by rw [hj])]
      simp only [rowTriplets, hi, hj, List.count_append]
      rw [count_singleton_ne _ _ (fun heq => hij (congrArg (fun t : Triplet => t.2.1) heq)),
        count_singleton_ne _ _ (fun heq => hij (congrArg (fun t : Triplet => t.2.1) heq).symm),
        cellCount_mirror_general inp ai aj fi fj i j hi hj hipos hjpos hij v,
        edgeCount_mirror inp ai aj fi fj i j hai haj hi hj hipos hjpos hij v]
    · rw [count_sparse_zero_of_no_col inp i j v hij hexj,
        count_sparse_zero_of_no_row inp j i v hexj]
  · rw [count_sparse_zero_of_no_row inp i j v hexi,
      count_sparse_zero_of_no_col inp j i v (Ne.symm hij) hexi]

theorem count_val_filter (l : List Triplet) (i j : ℤ) (v : ℚ) :
    ((l.filter fun t => decide (t.1 = i ∧ t.2.1 = j)).map fun t => t.2.2).count v
      = l.count (i, j, v) := by
  induction l with
  | nil => rfl
  | cons t l ih =>
    obtain ⟨r, c, w⟩ := t
    by_cases h : r = i ∧ c = j
    · obtain ⟨hr, hc⟩ := h
      subst hr; subst hc
      rw [List.filter_cons, if_pos (by simp), List.map_cons]
      by_cases hv : w = v
      · subst hv
        rw [List.count_cons_self, List.count_cons_self, ih]
      · rw [List.count_cons_of_ne (Ne.symm hv),
          List.count_cons_of_ne (show ((r, c, v) : Triplet) ≠ (r, c, w) by
            intro heq
            injection heq with h1 h2
            injection h2 with h2 h3
            exact hv h3.symm), ih]
    · rw [List.filter_cons, if_neg (by simpa using h),
        List.count_cons_of_ne (show ((i, j, v) : Triplet) ≠ (r, c, w) by
          intro heq
          injection heq with h1 h2
          injection h2 with h2 h3
          exact h ⟨h1.symm, h2.symm⟩)]
      exact ih

theorem tripletSum_mirror (inp : SolverInput) (i j : ℤ) (hij : i ≠ j) :
    tripletSum (sparseElements inp) i j = tripletSum (sparseElements inp) j i := by
  simp only [tripletSum]
  apply List.Perm.sum_eq
  rw [List.perm_iff_count]
  intro v
  rw [count_val_filter, count_val_filter]
  exact sparse_count_mirror inp i j hij v

/-- Claim C6: the assembled sparse system is symmetric. Every off-diagonal
triplet (i, j, v) accumulated by the assembly loops has a mirror triplet
(j, i, v) in the accumulated list, and after duplicate-summing the matrix
entry at (i, j) equals the entry at (j, i). -/
theorem claim6_symmetry (inp : SolverInput) (i j : ℤ) (v : ℚ) (hij : i ≠ j) :
    ((i, j, v) ∈ sparseElements inp → (j, i, v) ∈ sparseElements inp) ∧
      matAt inp i j = matAt inp j i := by
  constructor
  · intro hmem
    rw [← List.count_pos_iff] at hmem ⊢
    rw [← sparse_count_mirror inp i j hij v]
    exact hmem
  · exact tripletSum_mirror inp i j hij

theorem claim6_witness :
    (0 : ℤ) ≠ 1 ∧
      ((((0 : ℤ), (1 : ℤ), (-2 : ℚ)) ∈ sparseElements cInp →
          ((1 : ℤ), (0 : ℤ), (-2 : ℚ)) ∈ sparseElements cInp) ∧
        matAt cInp 0 1 = matAt cInp 1 0) :=
  ⟨by decide, claim6_symmetry cInp 0 1 (-2) (by decide)⟩

end FluidSim3D
